import Mathlib

/-!
Verification development for the run-congestion repository.

The segment-overlap detectors of `src/src/detect_overlap.py` and
`src/run_congestion/bridge.py`, the summary ranking of
`src/run_congestion/engine.py` and the density rollup of
`src/run_congestion/density.py` are embedded shallowly: pandas rows become
lists of structures, numpy pairwise matrices become row-major lists of pairs,
IEEE doubles become exact rationals, and Python dict/set values become
`List`/`Finset` values.

Batteries marks the core rational operations `@[irreducible]`, which blocks
`decide` on concrete rational inputs; the kernel itself ignores reducibility,
so restoring the default costs nothing in soundness.
-/

set_option allowUnsafeReducibility true in
attribute [semireducible] Rat.add Rat.mul Rat.inv Rat.sub

/-- Grid epsilon `1e-9` that the source adds to inclusive `np.arange` stops
(bridge.py lines 48 and 77, detect_overlap.py line 41). -/
def gridEps : ℚ := 1 / 1000000000

/-- Shallow embedding of `np.arange(a, b, s)` for a step `s > 0`: the points
`a + i*s` for `0 ≤ i < ⌈(b - a)/s⌉`, with exact rational arithmetic standing
in for IEEE doubles.  A nonpositive span gives the empty list, as in numpy. -/
def npArange (a b s : ℚ) : List ℚ :=
  (List.range (⌈(b - a) / s⌉).toNat).map fun i : ℕ => a + (i : ℚ) * s

/-- Shallow embedding of `np.unique`: the distinct values of `l` in ascending
order (bridge.py line 77). -/
def npUnique (l : List ℚ) : List ℚ :=
  List.insertionSort (· ≤ ·) l.dedup

/-- One row of the pace table (columns `event`, `runner_id`, `pace`): runner
ids are opaque values embedded as `ℕ`, `pace` is minutes per km.  The
`distance` column is never read by the detectors and is omitted. -/
structure PaceRow where
  event : String
  runner_id : ℕ
  pace : ℚ
deriving DecidableEq, Repr

/-- The linear pace model: arrival time in minutes at `km` for a runner with
the given event start time (minutes) and pace (minutes per km). -/
def arrivalTime (start pace km : ℚ) : ℚ := start + pace * km

/-- The rows of the pace table belonging to one event
(`df[df['event'] == ev]`). -/
def eventRows (df : List PaceRow) (ev : String) : List PaceRow :=
  df.filter fun r => r.event == ev

/-- All (prev, curr) runner pairs in row-major order, the flattening order of
the numpy pairwise matrices (`prev` along axis 0, `curr` along axis 1). -/
def allPairs (P C : List PaceRow) : List (PaceRow × PaceRow) :=
  (P.map fun p => C.map fun c => (p, c)).flatten

/-- Whether a (prev, curr) pair is within the time window at `km`:
`|t_prev - t_curr| * 60 <= w`, times in minutes, `w` in seconds
(detect_overlap.py lines 61-62, bridge.py lines 89-90). -/
def hitsAt (sp sc w km : ℚ) (pc : PaceRow × PaceRow) : Prop :=
  |arrivalTime sp pc.1.pace km - arrivalTime sc pc.2.pace km| * 60 ≤ w

instance (sp sc w km : ℚ) (pc : PaceRow × PaceRow) :
    Decidable (hitsAt sp sc w km pc) := by
  unfold hitsAt; infer_instance

/-- The hits at one sampled `km`: the pairs of the full pairwise matrix whose
time difference is within tolerance, in row-major (`np.argwhere`) order. -/
def stepHits (sp sc w km : ℚ) (P C : List PaceRow) : List (PaceRow × PaceRow) :=
  (allPairs P C).filter fun pc => decide (hitsAt sp sc w km pc)

/-- Event time of a hit, `min(t_prev, t_curr)` (detect_overlap.py line 77,
bridge.py line 95). -/
def eventTime (sp sc km : ℚ) (pc : PaceRow × PaceRow) : ℚ :=
  min (arrivalTime sp pc.1.pace km) (arrivalTime sc pc.2.pace km)

/-- One comparison step of `np.argmin`: keep the earlier element unless the
new one is strictly smaller. -/
def argminStep (acc : Option ((PaceRow × PaceRow) × ℚ))
    (x : (PaceRow × PaceRow) × ℚ) : Option ((PaceRow × PaceRow) × ℚ) :=
  match acc with
  | none => some x
  | some y => if x.2 < y.2 then some x else some y

/-- First element attaining the minimal second component: `np.argmin` keeps
the first index at which the minimum is attained. -/
def argminFirst (l : List ((PaceRow × PaceRow) × ℚ)) :
    Option ((PaceRow × PaceRow) × ℚ) :=
  l.foldl argminStep none

/-- Distinct prev-side runner ids hit at one `km`
(`set(prev_df['runner_id'].iloc[hits[:,0]])`). -/
def prevIdsAt (sp sc w km : ℚ) (P C : List PaceRow) : Finset ℕ :=
  ((stepHits sp sc w km P C).map fun pc => pc.1.runner_id).toFinset

/-- Distinct curr-side runner ids hit at one `km`. -/
def currIdsAt (sp sc w km : ℚ) (P C : List PaceRow) : Finset ℕ :=
  ((stepHits sp sc w km P C).map fun pc => pc.2.runner_id).toFinset

/-- Distinct (prev_id, curr_id) pairs hit at one `km`. -/
def pairIdsAt (sp sc w km : ℚ) (P C : List PaceRow) : Finset (ℕ × ℕ) :=
  ((stepHits sp sc w km P C).map fun pc => (pc.1.runner_id, pc.2.runner_id)).toFinset

/-- Total distinct overlapping runners at one `km`, the per-step congestion
(detect_overlap.py line 89, bridge.py line 102). -/
def totAt (sp sc w km : ℚ) (P C : List PaceRow) : ℕ :=
  (prevIdsAt sp sc w km P C).card + (currIdsAt sp sc w km P C).card

/-- Accumulator of the per-km scan loop.  `detect_overlap.py` keeps all six
components; `bridge.py` computes the same numbers but does not store the two
peak id sets. -/
structure ScanState where
  first_overlap : Option (ℚ × ℚ × ℕ × ℕ)
  cumulative : ℕ
  peak : ℕ
  peak_prev : Finset ℕ
  peak_curr : Finset ℕ
  pairs : Finset (ℕ × ℕ)
deriving DecidableEq

/-- The scan starts with no first overlap, zero counts and empty sets. -/
def initScan : ScanState := ⟨none, 0, 0, ∅, ∅, ∅⟩

/-- One iteration of the per-km scan loop shared by detect_overlap.py lines
55-93 and bridge.py lines 86-104: count every hit, collect distinct id
pairs, replace the stored first overlap when the step's earliest event time
beats it (strictly, or within `tieTol` at a smaller km), and take the
step-wise maximum of distinct-runner totals.  `tieTol` is `1e-6` in
detect_overlap.py line 85 and `1e-9` in bridge.py line 100.  In the Python,
steps with no hit skip the whole block; that adds 0 hits, no pairs, keeps the
first overlap and compares `0 > peak`, which is what this function does. -/
def scanStep (tieTol sp sc w : ℚ) (P C : List PaceRow) (st : ScanState)
    (km : ℚ) : ScanState :=
  let hits := stepHits sp sc w km P C
  let first :=
    match argminFirst (hits.map fun pc => (pc, eventTime sp sc km pc)) with
    | none => st.first_overlap
    | some x =>
      match st.first_overlap with
      | none => some (x.2, km, x.1.1.runner_id, x.1.2.runner_id)
      | some f =>
        if x.2 < f.1 ∨ (|x.2 - f.1| < tieTol ∧ km < f.2.1) then
          some (x.2, km, x.1.1.runner_id, x.1.2.runner_id)
        else some f
  { first_overlap := first
    cumulative := st.cumulative + hits.length
    peak := if totAt sp sc w km P C > st.peak then totAt sp sc w km P C else st.peak
    peak_prev := if totAt sp sc w km P C > st.peak then prevIdsAt sp sc w km P C else st.peak_prev
    peak_curr := if totAt sp sc w km P C > st.peak then currIdsAt sp sc w km P C else st.peak_curr
    pairs := st.pairs ∪ pairIdsAt sp sc w km P C }

/-- The per-km scan loop over a list of sampled kms. -/
def overlapScan (tieTol sp sc w : ℚ) (P C : List PaceRow) (kms : List ℚ) :
    ScanState :=
  kms.foldl (scanStep tieTol sp sc w P C) initScan

/-- Python dict insertion for the `runner_id`-keyed arrival dicts of
detect_overlap.py lines 43-46: an existing key keeps its position and has its
value (here the row, hence the pace) replaced, a new key is appended.  The
replaced row carries the same `runner_id` and, since the input is already
restricted to one event, the same event. -/
def dictUpsert (acc : List PaceRow) (r : PaceRow) : List PaceRow :=
  if acc.any fun s => s.runner_id == r.runner_id then
    acc.map fun s => if s.runner_id == r.runner_id then r else s
  else acc ++ [r]

/-- The rows as the `runner_id`-keyed Python dict enumerates them: first
occurrence order, later duplicate ids overwriting the stored pace. -/
def dictRows (l : List PaceRow) : List PaceRow := l.foldl dictUpsert []

/-- Tie tolerance of the first-overlap comparison in detect_overlap.py line 85. -/
def detectTieTol : ℚ := 1 / 1000000

/-- Tie tolerance of the first-overlap comparison in bridge.py line 100. -/
def bridgeTieTol : ℚ := 1 / 1000000000

/-- The dict returned by `detect_overlap.detect_segment_overlap`
(detect_overlap.py lines 95-106). -/
structure DetectionResult where
  segment_start : ℚ
  segment_end : ℚ
  total_prev : ℕ
  total_curr : ℕ
  first_overlap : Option (ℚ × ℚ × ℕ × ℕ)
  cumulative_overlap_events : ℕ
  peak_congestion : ℕ
  peak_prev_at_peak : Finset ℕ
  peak_curr_at_peak : Finset ℕ
  unique_overlapping_pairs : ℕ
deriving DecidableEq

/-- Shallow embedding of `detect_segment_overlap` of src/src/detect_overlap.py
lines 29-106: the full-resolution brute-force scan.  `None` when either event
has no rows; otherwise a single `np.arange` grid over the whole segment with
the inclusive `+1e-9` stop, arrival dicts keyed by `runner_id` (hence
`dictRows`), and the per-km scan with tie tolerance `1e-6`.  `total_prev` and
`total_curr` are the raw row counts `len(prev_df)`, `len(curr_df)`. -/
def detect_segment_overlap (df : List PaceRow) (prev_event curr_event : String)
    (start_prev_min start_curr_min seg_start_km seg_end_km : ℚ)
    (time_window_secs step_km : ℚ) : Option DetectionResult :=
  let prev_df := eventRows df prev_event
  let curr_df := eventRows df curr_event
  if prev_df.isEmpty || curr_df.isEmpty then none
  else
    let steps := npArange seg_start_km (seg_end_km + gridEps) step_km
    let st := overlapScan detectTieTol start_prev_min start_curr_min
      time_window_secs (dictRows prev_df) (dictRows curr_df) steps
    some ⟨seg_start_km, seg_end_km, prev_df.length, curr_df.length,
      st.first_overlap, st.cumulative, st.peak, st.peak_prev, st.peak_curr,
      st.pairs.card⟩

/-- The broadcast interval-overlap test of bridge.py lines 40-41: a prev row
is kept against a curr row when their arrival-time intervals over
`[seg_start, seg_end]` intersect. -/
def prefilterKeep (sp sc ss se : ℚ) (p c : PaceRow) : Prop :=
  arrivalTime sp p.pace se ≥ arrivalTime sc c.pace ss ∧
  arrivalTime sc c.pace se ≥ arrivalTime sp p.pace ss

instance (sp sc ss se : ℚ) (p c : PaceRow) :
    Decidable (prefilterKeep sp sc ss se p c) := by
  unfold prefilterKeep; infer_instance

/-- The prev rows surviving the pre-filter, `mask.any(axis=1)` over the
original event populations (bridge.py line 42). -/
def bridgePrevFiltered (df : List PaceRow) (pe ce : String)
    (sp sc ss se : ℚ) : List PaceRow :=
  (eventRows df pe).filter fun p =>
    (eventRows df ce).any fun c => decide (prefilterKeep sp sc ss se p c)

/-- The curr rows surviving the pre-filter, `mask.any(axis=0)`
(bridge.py line 43). -/
def bridgeCurrFiltered (df : List PaceRow) (pe ce : String)
    (sp sc ss se : ℚ) : List PaceRow :=
  (eventRows df ce).filter fun c =>
    (eventRows df pe).any fun p => decide (prefilterKeep sp sc ss se p c)

/-- The candidate coarse kms of bridge.py lines 48-55: the coarse grid points
at which some pair of the filtered populations is within tolerance. -/
def bridgeCandidates (df : List PaceRow) (pe ce : String)
    (sp sc ss se w step : ℚ) (cf : ℕ) : List ℚ :=
  (npArange ss (se + gridEps) (step * (cf : ℚ))).filter fun km =>
    !(stepHits sp sc w km (bridgePrevFiltered df pe ce sp sc ss se)
        (bridgeCurrFiltered df pe ce sp sc ss se)).isEmpty

/-- Lexicographic order on (low, high) range pairs: Python's `ranges.sort()`
on 2-tuples. -/
def rangeLE (r s : ℚ × ℚ) : Prop := r.1 < s.1 ∨ (r.1 = s.1 ∧ r.2 ≤ s.2)

instance : DecidableRel rangeLE := fun r s => by
  unfold rangeLE; infer_instance

instance : IsTrans (ℚ × ℚ) rangeLE := by
  constructor
  intro a b c hab hbc
  rcases hab with h1 | ⟨h1, h1b⟩ <;> rcases hbc with h2 | ⟨h2, h2b⟩
  · exact Or.inl (lt_trans h1 h2)
  · exact Or.inl (h2 ▸ h1)
  · exact Or.inl (h1 ▸ h2)
  · exact Or.inr ⟨h1.trans h2, h1b.trans h2b⟩

instance : IsTotal (ℚ × ℚ) rangeLE := by
  constructor
  intro a b
  rcases lt_trichotomy a.1 b.1 with h | h | h
  · exact Or.inl (Or.inl h)
  · rcases le_total a.2 b.2 with hp | hp
    · exact Or.inl (Or.inr ⟨h, hp⟩)
    · exact Or.inr (Or.inr ⟨h.symm, hp⟩)
  · exact Or.inr (Or.inl h)

/-- The merge loop of bridge.py lines 70-75 over the tail, carrying the range
being accumulated: a next range whose low is at or below the accumulated high
is absorbed (high becomes the max), otherwise the accumulated range is
emitted and the next range starts accumulating. -/
def mergeRangesGo : ℚ × ℚ → List (ℚ × ℚ) → List (ℚ × ℚ)
  | cur, [] => [cur]
  | cur, r :: rest =>
    if r.1 ≤ cur.2 then mergeRangesGo (cur.1, max cur.2 r.2) rest
    else cur :: mergeRangesGo r rest

/-- Merging a sorted range list (bridge.py lines 70-75). -/
def mergeRanges : List (ℚ × ℚ) → List (ℚ × ℚ)
  | [] => []
  | r :: rest => mergeRangesGo r rest

/-- The candidate ranges of bridge.py lines 64-68: each candidate km clipped
to `[km - coarse_step, km + coarse_step] ∩ [seg_start, seg_end]`. -/
def bridgeRanges (cands : List ℚ) (ss se cs : ℚ) : List (ℚ × ℚ) :=
  cands.map fun km => (max ss (km - cs), min se (km + cs))

/-- The refined km list of bridge.py line 77:
`np.unique(np.concatenate([np.arange(lo, hi + 1e-9, step_km) ...]))` over the
sorted, merged candidate ranges. -/
def bridgeRefined (df : List PaceRow) (pe ce : String)
    (sp sc ss se w step : ℚ) (cf : ℕ) : List ℚ :=
  npUnique (((mergeRanges (List.insertionSort rangeLE
      (bridgeRanges (bridgeCandidates df pe ce sp sc ss se w step cf)
        ss se (step * (cf : ℚ))))).map
    fun r => npArange r.1 (r.2 + gridEps) step).flatten)

/-- The dict returned by `bridge._detect_segment_overlap` (bridge.py lines
56-62 and 106-113): no peak id sets, `total_prev`/`total_curr` are the
populations after the pre-filter. -/
structure BridgeResult where
  segment_start : ℚ
  segment_end : ℚ
  total_prev : ℕ
  total_curr : ℕ
  first_overlap : Option (ℚ × ℚ × ℕ × ℕ)
  cumulative_overlap_events : ℕ
  peak_congestion : ℕ
  unique_overlapping_pairs : ℕ
deriving DecidableEq

/-- Shallow embedding of `_detect_segment_overlap` of
src/run_congestion/bridge.py lines 23-113, the coarse-to-fine detector:
`None` when an event has no rows or the pre-filter empties a side; a
zero-result when no coarse km is a candidate; otherwise the per-km scan with
tie tolerance `1e-9` over the refined km list. -/
def bridgeDetect (df : List PaceRow) (pe ce : String)
    (sp sc ss se w step : ℚ) (cf : ℕ) : Option BridgeResult :=
  if (eventRows df pe).isEmpty || (eventRows df ce).isEmpty then none
  else
    let prevF := bridgePrevFiltered df pe ce sp sc ss se
    let currF := bridgeCurrFiltered df pe ce sp sc ss se
    if prevF.isEmpty || currF.isEmpty then none
    else if (bridgeCandidates df pe ce sp sc ss se w step cf).isEmpty then
      some ⟨ss, se, prevF.length, currF.length, none, 0, 0, 0⟩
    else
      let st := overlapScan bridgeTieTol sp sc w prevF currF
        (bridgeRefined df pe ce sp sc ss se w step cf)
      some ⟨ss, se, prevF.length, currF.length, st.first_overlap,
        st.cumulative, st.peak, st.pairs.card⟩

/-- The denominator of the `peak_congestion_ratio` division at bridge.py
line 141: `res['total_prev'] + res['total_curr']`. -/
def peakRatioDenom (res : BridgeResult) : ℕ := res.total_prev + res.total_curr

/-- Round-half-to-even, the behavior of Python `round` on ties; the embedding
reads Python floats as exact rationals throughout. -/
def roundHalfEven (x : ℚ) : ℤ :=
  if x - ⌊x⌋ < 1/2 then ⌊x⌋
  else if x - ⌊x⌋ > 1/2 then ⌊x⌋ + 1
  else if ⌊x⌋ % 2 = 0 then ⌊x⌋ else ⌊x⌋ + 1

/-- Python `round(x, d)` to `d` decimal places. -/
def roundTo (x : ℚ) (d : ℕ) : ℚ := (roundHalfEven (x * 10 ^ d) : ℚ) / 10 ^ d

/-- The `_bins` sampling of density.py lines 55-58:
`n = max(0, int(round((k1 - k0) / step_km)))`, then the points
`round(k0 + i*step_km, 2)` for `i = 0..n` (inclusive upper bound). -/
def binsList (k0 k1 step_km : ℚ) : List ℚ :=
  (List.range ((max 0 (roundHalfEven ((k1 - k0) / step_km))).toNat + 1)).map
    fun i : ℕ => roundTo (k0 + (i : ℚ) * step_km) 2

/-- The four density zones of density.py. -/
inductive Zone
  | green
  | amber
  | red
  | darkRed
deriving DecidableEq, Repr

/-- The `_zone` thresholds of density.py lines 60-64. -/
def zoneOf (density : ℚ) : Zone :=
  if density < 1 then .green
  else if density < 3/2 then .amber
  else if density < 2 then .red
  else .darkRed

/-- The `_congestion_index` score of density.py lines 66-75: a piecewise
linear peak component clamped to [0, 5], a weighted duration component
capped at 3, their sum capped at 10 and rounded to one decimal. -/
def congestionIndex (d_peak share_amber share_red share_dark : ℚ) : ℚ :=
  let s_peak0 : ℚ :=
    if d_peak < 1 then 0
    else if d_peak < 3/2 then 2 * (d_peak - 1) / (1/2)
    else if d_peak < 2 then 2 + 2 * (d_peak - 3/2) / (1/2)
    else 4 + 1 * (min d_peak 3 - 2) / 1
  let s_peak := max 0 (min 5 s_peak0)
  let s_zones := 3 * min 1 (2/5 * share_amber + 4/5 * share_red + 1 * share_dark)
  roundTo (min 10 (s_peak + s_zones)) 1

/-- The `Segment` dataclass of density.py lines 25-32. -/
structure DensitySegment where
  event_a : String
  event_b : Option String
  km_from : ℚ
  km_to : ℚ
  width_m : ℚ
  direction : String
deriving DecidableEq, Repr

/-- The `DensityStep` dataclass of density.py lines 34-40. -/
structure DensityStep where
  km : ℚ
  counts : List (String × ℕ)
  combined : ℕ
  areal_m2 : ℚ
  linear_m : ℚ
deriving DecidableEq, Repr

/-- Dict lookup with default 0: `start_times_min.get(e, 0)`
(density.py line 116). -/
def startLookup (st : List (String × ℤ)) (e : String) : ℤ :=
  ((st.find? fun kv => kv.1 == e).map fun kv => kv.2).getD 0

/-- Minimum of a nonempty list of arrival times (`t_k.min()`,
density.py line 131). -/
def minList (t : ℚ) (rest : List ℚ) : ℚ := rest.foldl min t

/-- The event list of a density segment: `[event_a] + ([event_b] or [])`
(density.py line 109). -/
def segEvents (seg : DensitySegment) : List String :=
  seg.event_a :: (match seg.event_b with | some e => [e] | none => [])

/-- `compute_density_steps` of density.py lines 101-138: at each `_bins`
point, per event, count runners whose arrival time (seconds) falls in the
window `[t0 - w/2, t0 + w/2]` anchored at the earliest arrival `t0`;
combined count over events, areal density per step area, linear density per
step length.  With no rows for the segment's events, all-zero steps. -/
def computeDensitySteps (pace_df : List PaceRow) (seg : DensitySegment)
    (start_times_min : List (String × ℤ)) (step_km : ℚ) (window_s : ℚ) :
    List DensityStep :=
  let ks := binsList seg.km_from seg.km_to step_km
  let evs := segEvents seg
  let df := pace_df.filter fun r => evs.contains r.event
  if df.isEmpty then
    ks.map fun k => ⟨k, evs.map fun e => (e, 0), 0, 0, 0⟩
  else
    let area_per_step := step_km * 1000 * max (1/100) seg.width_m
    ks.map fun k =>
      let counts := evs.map fun ev =>
        match (df.filter fun r => r.event == ev).map
            (fun r => ((startLookup start_times_min ev : ℚ) * 60) + r.pace * 60 * k) with
        | [] => (ev, 0)
        | t :: rest =>
          let t0 := minList t rest
          (ev, ((t :: rest).filter fun x =>
            decide (t0 - window_s / 2 ≤ x ∧ x ≤ t0 + window_s / 2)).length)
      let combined := (counts.map Prod.snd).sum
      ⟨k, counts, combined, (combined : ℚ) / area_per_step,
        (combined : ℚ) / (step_km * 1000)⟩

/-- `STEP_KM_DEFAULT` of density.py line 22. -/
def STEP_KM_DEFAULT : ℚ := 3 / 100

/-- One iteration of the zone-km accumulation loop of density.py lines
144-147: the step adds `STEP_KM_DEFAULT` - not the step the inputs were
generated with - to its zone's total.  Components in order: green, amber,
red, dark_red. -/
def zoneAdd (z : ℚ × ℚ × ℚ × ℚ) (s : DensityStep) : ℚ × ℚ × ℚ × ℚ :=
  match zoneOf s.areal_m2 with
  | .green => (z.1 + STEP_KM_DEFAULT, z.2.1, z.2.2.1, z.2.2.2)
  | .amber => (z.1, z.2.1 + STEP_KM_DEFAULT, z.2.2.1, z.2.2.2)
  | .red => (z.1, z.2.1, z.2.2.1 + STEP_KM_DEFAULT, z.2.2.2)
  | .darkRed => (z.1, z.2.1, z.2.2.1, z.2.2.2 + STEP_KM_DEFAULT)

/-- The zone-km totals of density.py lines 144-147. -/
def zoneTotals (steps : List DensityStep) : ℚ × ℚ × ℚ × ℚ :=
  steps.foldl zoneAdd (0, 0, 0, 0)

/-- The `SegmentRollup` dataclass of density.py lines 42-53, with the
`zones_km` dict split into four fields and the empty diagnostics dict
omitted. -/
structure SegmentRollup where
  segment : DensitySegment
  peak_km : ℚ
  peak_combined : ℕ
  peak_counts : List (String × ℕ)
  peak_step_areal_m2 : ℚ
  peak_step_linear_m : ℚ
  segment_avg_at_peak_areal_m2 : ℚ
  segment_avg_at_peak_linear_m : ℚ
  zones_km_green : ℚ
  zones_km_amber : ℚ
  zones_km_red : ℚ
  zones_km_dark_red : ℚ
  index_0_10 : ℚ
deriving DecidableEq, Repr

/-- `rollup_segment` of density.py lines 140-173.  Python raises ValueError
on an empty step list, embedded as `none`.  `max(steps, key=...)` keeps the
first step attaining the maximal areal density; shares are computed from
the unrounded zone totals while the reported `zones_km` are rounded. -/
def rollupSegment (steps : List DensityStep) (seg : DensitySegment) :
    Option SegmentRollup :=
  match steps with
  | [] => none
  | s0 :: _ =>
    let peak := steps.foldl (fun acc s => if s.areal_m2 > acc.areal_m2 then s else acc) s0
    let z := zoneTotals steps
    let length_km := max (1/1000000000) (seg.km_to - seg.km_from)
    let length_m := length_km * 1000
    let area_seg := max 1 (length_m * max (1/100) seg.width_m)
    let idx := congestionIndex peak.areal_m2 (z.2.1 / length_km)
      (z.2.2.1 / length_km) (z.2.2.2 / length_km)
    some ⟨seg, peak.km, peak.combined, peak.counts,
      roundTo peak.areal_m2 2, roundTo peak.linear_m 2,
      roundTo ((peak.combined : ℚ) / area_seg) 3,
      roundTo ((peak.combined : ℚ) / length_m) 3,
      roundTo z.1 2, roundTo z.2.1 2, roundTo z.2.2.1 2, roundTo z.2.2.2 2, idx⟩

/-- The per-zone shares of density.py lines 156-158 (zone-km over segment
length), extended with the analogous green share, summed: the quantity claim
C6 speaks about. -/
def zoneShareSum (steps : List DensityStep) (seg : DensitySegment) : ℚ :=
  let z := zoneTotals steps
  let length_km := max (1/1000000000) (seg.km_to - seg.km_from)
  z.1 / length_km + z.2.1 / length_km + z.2.2.1 / length_km + z.2.2.2 / length_km

/-- One row of the engine summary DataFrame (engine.py lines 317-327). -/
structure SummaryRow where
  event_pair : String
  start_km : ℚ
  end_km : ℚ
  description : String
  peak : ℕ
  peak_ratio : ℚ
  intensity : ℕ
  intensity_per_km : ℚ
  distinct_pairs : ℕ
deriving DecidableEq, Repr

/-- The metric name strings of engine.py. -/
def rkIntensity : String := "intensity"

/-- The default ranking metric name of engine.py. -/
def rkPeakRatio : String := "peak_ratio"

/-- The `rank_by` normalization of engine.py lines 309-310: anything other
than the two known metrics falls back to peak_ratio. -/
def normRank (rank_by : String) : String :=
  if rank_by = rkPeakRatio ∨ rank_by = rkIntensity then rank_by else rkPeakRatio

/-- The ranking key column chosen by `rank_by`. -/
def rankKey (rank_by : String) (r : SummaryRow) : ℚ :=
  if rank_by = rkIntensity then (r.intensity : ℚ) else r.peak_ratio

/-- The pandas multi-column descending sort order of engine.py lines 331-335:
`sort_values(["intensity", "peak"], ascending=[False, False])` or the same
with `peak_ratio`.  `a` may stand before `b` when `a` wins or ties
lexicographically on (metric, peak), both descending. -/
def summaryBefore (rank_by : String) (a b : SummaryRow) : Prop :=
  rankKey rank_by b < rankKey rank_by a ∨
    (rankKey rank_by a = rankKey rank_by b ∧ b.peak ≤ a.peak)

instance (rank_by : String) : DecidableRel (summaryBefore rank_by) := fun a b => by
  unfold summaryBefore; infer_instance

/-- The summary ranking of engine.py lines 309-335.  pandas sorts on several
columns with a stable lexicographic sort (numpy lexsort; the `kind` choice
applies to single-column sorts only), and a stable sort for a total preorder
is unique, so the stable `List.insertionSort` computes the same list. -/
def engineRank (rank_by : String) (rows : List SummaryRow) : List SummaryRow :=
  List.insertionSort (summaryBefore (normRank rank_by)) rows

/-- One row of the overlaps table as engine.py reads it (columns `event`,
`overlapswith`, `start`, `end`). -/
structure OverlapRow where
  event : String
  overlapswith : String
  start_km : ℚ
  end_km : ℚ
deriving DecidableEq, Repr

/-- Column name constants of the two input tables. -/
def colEvent : String := "event"

/-- Column `runner_id`. -/
def colRunnerId : String := "runner_id"

/-- Column `pace`. -/
def colPace : String := "pace"

/-- Column `start`. -/
def colStart : String := "start"

/-- Column `end`. -/
def colEnd : String := "end"

/-- Column `overlapswith`. -/
def colOverlapsWith : String := "overlapswith"

/-- Control skeleton of `analyze_overlaps` of src/run_congestion/engine.py
lines 138-358 with `segments=None`, faithful to what can raise.  CSV loading
and dtype casts are collaborator work (spec section 1) and are taken as done:
the inputs are the lowered and stripped column-name lists and the parsed
rows.  After the column validation of lines 179-184, the row loop of lines
251-306 runs; a row whose two events both appear in `start_times` reaches
the call at lines 268-270, which passes the name `step` - not defined
anywhere in the function, whose parameter is named `step_km` (line 143) - so
Python raises `NameError: name 'step' is not defined` there.  A row with an
event missing from `start_times` is skipped (line 263), and when no row is
processed the function returns its result dict. -/
def engineAnalyzeOverlaps (paceCols ovCols : List String)
    (ovRows : List OverlapRow) (start_times : List (String × ℚ)) :
    Except String Unit :=
  if ¬ ([colEvent, colRunnerId, colPace].all fun c => paceCols.contains c) then
    Except.error "ValueError: Pace CSV missing columns"
  else if ¬ ([colEvent, colStart, colEnd, colOverlapsWith].all fun c =>
      ovCols.contains c) then
    Except.error "ValueError: Overlaps CSV missing columns"
  else if ovRows.any fun r =>
      (start_times.any fun kv => kv.1 == r.event) &&
      (start_times.any fun kv => kv.1 == r.overlapswith) then
    Except.error "NameError: name 'step' is not defined"
  else
    Except.ok ()

/-! ## Helper lemmas: the per-km scan loop -/

theorem foldl_argminStep_some_ne_none (l : List ((PaceRow × PaceRow) × ℚ)) :
    ∀ y, l.foldl argminStep (some y) ≠ none := by
  induction l with
  | nil => intro y; simp
  | cons x xs ih =>
    intro y
    simp only [List.foldl_cons]
    have hstep : argminStep (some y) x = if x.2 < y.2 then some x else some y := rfl
    rw [hstep]
    split <;> exact ih _

theorem argminFirst_eq_none_iff (l : List ((PaceRow × PaceRow) × ℚ)) :
    argminFirst l = none ↔ l = [] := by
  cases l with
  | nil => simp [argminFirst]
  | cons x xs =>
    simp only [argminFirst, List.foldl_cons]
    have h : xs.foldl argminStep (argminStep none x) ≠ none :=
      foldl_argminStep_some_ne_none xs x
    simp [h]

theorem scanStep_cumulative (tieTol sp sc w : ℚ) (P C : List PaceRow)
    (st : ScanState) (km : ℚ) :
    (scanStep tieTol sp sc w P C st km).cumulative
      = st.cumulative + (stepHits sp sc w km P C).length := rfl

theorem scanStep_pairs (tieTol sp sc w : ℚ) (P C : List PaceRow)
    (st : ScanState) (km : ℚ) :
    (scanStep tieTol sp sc w P C st km).pairs
      = st.pairs ∪ pairIdsAt sp sc w km P C := rfl

theorem scanStep_peak (tieTol sp sc w : ℚ) (P C : List PaceRow)
    (st : ScanState) (km : ℚ) :
    (scanStep tieTol sp sc w P C st km).peak
      = max st.peak (totAt sp sc w km P C) := by
  show (if totAt sp sc w km P C > st.peak then totAt sp sc w km P C else st.peak)
    = max st.peak (totAt sp sc w km P C)
  split <;> omega

theorem scanStep_first_eq_none_iff (tieTol sp sc w : ℚ) (P C : List PaceRow)
    (st : ScanState) (km : ℚ) :
    (scanStep tieTol sp sc w P C st km).first_overlap = none
      ↔ st.first_overlap = none ∧ stepHits sp sc w km P C = [] := by
  show (match argminFirst ((stepHits sp sc w km P C).map
      fun pc => (pc, eventTime sp sc km pc)) with
    | none => st.first_overlap
    | some x =>
      match st.first_overlap with
      | none => some (x.2, km, x.1.1.runner_id, x.1.2.runner_id)
      | some f =>
        if x.2 < f.1 ∨ (|x.2 - f.1| < tieTol ∧ km < f.2.1) then
          some (x.2, km, x.1.1.runner_id, x.1.2.runner_id)
        else some f) = none ↔ _
  rcases h : argminFirst ((stepHits sp sc w km P C).map
      fun pc => (pc, eventTime sp sc km pc)) with _ | x
  · rw [argminFirst_eq_none_iff, List.map_eq_nil_iff] at h
    simp [h]
  · have hne : ¬ stepHits sp sc w km P C = [] := by
      intro hh
      rw [hh] at h
      simp [argminFirst] at h
    cases hf : st.first_overlap with
    | none => simp [hne]
    | some f => simp only; split <;> simp [hne]

theorem scan_foldl_cumulative (tieTol sp sc w : ℚ) (P C : List PaceRow)
    (kms : List ℚ) : ∀ st : ScanState,
    (kms.foldl (scanStep tieTol sp sc w P C) st).cumulative
      = st.cumulative + (kms.map fun km => (stepHits sp sc w km P C).length).sum := by
  induction kms with
  | nil => intro st; simp
  | cons k ks ih =>
    intro st
    simp only [List.foldl_cons, ih, scanStep_cumulative, List.map_cons, List.sum_cons]
    omega

theorem scan_foldl_pairs_mem (tieTol sp sc w : ℚ) (P C : List PaceRow)
    (kms : List ℚ) : ∀ (st : ScanState) (x : ℕ × ℕ),
    x ∈ (kms.foldl (scanStep tieTol sp sc w P C) st).pairs
      ↔ x ∈ st.pairs ∨ ∃ km ∈ kms, x ∈ pairIdsAt sp sc w km P C := by
  induction kms with
  | nil => intro st x; simp
  | cons k ks ih =>
    intro st x
    rw [List.foldl_cons, ih, scanStep_pairs]
    simp only [Finset.mem_union, List.mem_cons]
    constructor
    · rintro (⟨h | h⟩ | ⟨km, hkm, h⟩)
      · exact Or.inl h
      · exact Or.inr ⟨k, Or.inl rfl, h⟩
      · exact Or.inr ⟨km, Or.inr hkm, h⟩
    · rintro (h | ⟨km, (rfl | hkm), h⟩)
      · exact Or.inl (Or.inl h)
      · exact Or.inl (Or.inr h)
      · exact Or.inr ⟨km, hkm, h⟩

theorem scan_foldl_peak_le_iff (tieTol sp sc w : ℚ) (P C : List PaceRow)
    (kms : List ℚ) : ∀ (st : ScanState) (n : ℕ),
    (kms.foldl (scanStep tieTol sp sc w P C) st).peak ≤ n
      ↔ st.peak ≤ n ∧ ∀ km ∈ kms, totAt sp sc w km P C ≤ n := by
  induction kms with
  | nil => intro st n; simp
  | cons k ks ih =>
    intro st n
    rw [List.foldl_cons, ih, scanStep_peak]
    simp only [max_le_iff, List.forall_mem_cons]
    tauto

theorem scan_foldl_peak_cases (tieTol sp sc w : ℚ) (P C : List PaceRow)
    (kms : List ℚ) : ∀ st : ScanState,
    (kms.foldl (scanStep tieTol sp sc w P C) st).peak = st.peak
      ∨ ∃ km ∈ kms,
        (kms.foldl (scanStep tieTol sp sc w P C) st).peak = totAt sp sc w km P C := by
  induction kms with
  | nil => intro st; exact Or.inl rfl
  | cons k ks ih =>
    intro st
    rw [List.foldl_cons]
    rcases ih (scanStep tieTol sp sc w P C st k) with h | ⟨km, hkm, h⟩
    · rw [h, scanStep_peak]
      rcases max_choice st.peak (totAt sp sc w k P C) with h2 | h2
      · exact Or.inl h2
      · exact Or.inr ⟨k, List.mem_cons_self _ _, h2⟩
    · exact Or.inr ⟨km, List.mem_cons_of_mem _ hkm, h⟩

theorem scan_foldl_first_none_iff (tieTol sp sc w : ℚ) (P C : List PaceRow)
    (kms : List ℚ) : ∀ st : ScanState,
    (kms.foldl (scanStep tieTol sp sc w P C) st).first_overlap = none
      ↔ st.first_overlap = none ∧ ∀ km ∈ kms, stepHits sp sc w km P C = [] := by
  induction kms with
  | nil => intro st; simp
  | cons k ks ih =>
    intro st
    rw [List.foldl_cons, ih, scanStep_first_eq_none_iff]
    simp only [List.forall_mem_cons]
    tauto

theorem overlapScan_cumulative (tieTol sp sc w : ℚ) (P C : List PaceRow)
    (kms : List ℚ) :
    (overlapScan tieTol sp sc w P C kms).cumulative
      = (kms.map fun km => (stepHits sp sc w km P C).length).sum := by
  rw [overlapScan, scan_foldl_cumulative]
  simp [initScan]

theorem overlapScan_pairs_mem (tieTol sp sc w : ℚ) (P C : List PaceRow)
    (kms : List ℚ) (x : ℕ × ℕ) :
    x ∈ (overlapScan tieTol sp sc w P C kms).pairs
      ↔ ∃ km ∈ kms, x ∈ pairIdsAt sp sc w km P C := by
  rw [overlapScan, scan_foldl_pairs_mem]
  simp [initScan]

theorem overlapScan_peak_le_iff (tieTol sp sc w : ℚ) (P C : List PaceRow)
    (kms : List ℚ) (n : ℕ) :
    (overlapScan tieTol sp sc w P C kms).peak ≤ n
      ↔ ∀ km ∈ kms, totAt sp sc w km P C ≤ n := by
  rw [overlapScan, scan_foldl_peak_le_iff]
  simp [initScan]

theorem overlapScan_peak_cases (tieTol sp sc w : ℚ) (P C : List PaceRow)
    (kms : List ℚ) :
    (overlapScan tieTol sp sc w P C kms).peak = 0
      ∨ ∃ km ∈ kms,
        (overlapScan tieTol sp sc w P C kms).peak = totAt sp sc w km P C :=
  scan_foldl_peak_cases tieTol sp sc w P C kms initScan

theorem overlapScan_first_none_iff (tieTol sp sc w : ℚ) (P C : List PaceRow)
    (kms : List ℚ) :
    (overlapScan tieTol sp sc w P C kms).first_overlap = none
      ↔ ∀ km ∈ kms, stepHits sp sc w km P C = [] := by
  rw [overlapScan, scan_foldl_first_none_iff]
  simp [initScan]

theorem pairIdsAt_eq_empty_iff (sp sc w km : ℚ) (P C : List PaceRow) :
    pairIdsAt sp sc w km P C = ∅ ↔ stepHits sp sc w km P C = [] := by
  simp [pairIdsAt]

theorem totAt_eq_zero (sp sc w km : ℚ) (P C : List PaceRow)
    (h : stepHits sp sc w km P C = []) : totAt sp sc w km P C = 0 := by
  simp [totAt, prevIdsAt, currIdsAt, h]

theorem scan_indicators (tieTol sp sc w : ℚ) (P C : List PaceRow)
    (kms : List ℚ) :
    ((overlapScan tieTol sp sc w P C kms).first_overlap = none
        ↔ (overlapScan tieTol sp sc w P C kms).cumulative = 0) ∧
    ((overlapScan tieTol sp sc w P C kms).cumulative = 0
        ↔ (overlapScan tieTol sp sc w P C kms).pairs.card = 0) ∧
    ((overlapScan tieTol sp sc w P C kms).first_overlap = none →
        (overlapScan tieTol sp sc w P C kms).peak = 0) := by
  have hcum : (overlapScan tieTol sp sc w P C kms).cumulative = 0
      ↔ ∀ km ∈ kms, stepHits sp sc w km P C = [] := by
    rw [overlapScan_cumulative, List.sum_eq_zero_iff]
    constructor
    · intro h km hkm
      have := h ((stepHits sp sc w km P C).length) (List.mem_map_of_mem _ hkm)
      exact List.length_eq_zero.mp this
    · intro h n hn
      rcases List.mem_map.mp hn with ⟨km, hkm, rfl⟩
      rw [h km hkm]
      rfl
  have hpairs : (overlapScan tieTol sp sc w P C kms).pairs.card = 0
      ↔ ∀ km ∈ kms, stepHits sp sc w km P C = [] := by
    rw [Finset.card_eq_zero, Finset.eq_empty_iff_forall_not_mem]
    constructor
    · intro h km hkm
      by_contra hne
      rcases List.exists_mem_of_ne_nil _ hne with ⟨pc, hpc⟩
      exact h (pc.1.runner_id, pc.2.runner_id)
        ((overlapScan_pairs_mem tieTol sp sc w P C kms _).mpr
          ⟨km, hkm, List.mem_toFinset.mpr (List.mem_map_of_mem _ hpc)⟩)
    · intro h x hx
      rcases (overlapScan_pairs_mem tieTol sp sc w P C kms x).mp hx with ⟨km, hkm, hmem⟩
      rw [(pairIdsAt_eq_empty_iff sp sc w km P C).mpr (h km hkm)] at hmem
      exact absurd hmem (Finset.not_mem_empty x)
  refine ⟨?_, ?_, ?_⟩
  · rw [overlapScan_first_none_iff, hcum]
  · rw [hcum, hpairs]
  · intro hfirst
    have hall := (overlapScan_first_none_iff tieTol sp sc w P C kms).mp hfirst
    have : (overlapScan tieTol sp sc w P C kms).peak ≤ 0 :=
      (overlapScan_peak_le_iff tieTol sp sc w P C kms 0).mpr
        fun km hkm => le_of_eq (totAt_eq_zero sp sc w km P C (hall km hkm))
    omega

/-! ## Claim theorems: C8, C3, C10, C2 -/

/-- C8: for every non-None result of either segment detector (full-resolution
`detect_segment_overlap` of detect_overlap.py or `_detect_segment_overlap` of
bridge.py), the emptiness indicators agree: `first_overlap` is `None` iff
`cumulative_overlap_events = 0` iff `unique_overlapping_pairs = 0`, and in
that case `peak_congestion = 0` as well. -/
theorem c8_empty_indicators_agree :
    (∀ df pe ce sp sc ss se w step (r : DetectionResult),
        detect_segment_overlap df pe ce sp sc ss se w step = some r →
        ((r.first_overlap = none ↔ r.cumulative_overlap_events = 0) ∧
          (r.cumulative_overlap_events = 0 ↔ r.unique_overlapping_pairs = 0) ∧
          (r.first_overlap = none → r.peak_congestion = 0))) ∧
    (∀ df pe ce sp sc ss se w step cf (r : BridgeResult),
        bridgeDetect df pe ce sp sc ss se w step cf = some r →
        ((r.first_overlap = none ↔ r.cumulative_overlap_events = 0) ∧
          (r.cumulative_overlap_events = 0 ↔ r.unique_overlapping_pairs = 0) ∧
          (r.first_overlap = none → r.peak_congestion = 0))) := by
  constructor
  · intro df pe ce sp sc ss se w step r h
    simp only [detect_segment_overlap] at h
    split_ifs at h with h1
    rw [Option.some.injEq] at h
    subst h
    exact scan_indicators detectTieTol sp sc w
      (dictRows (eventRows df pe)) (dictRows (eventRows df ce))
      (npArange ss (se + gridEps) step)
  · intro df pe ce sp sc ss se w step cf r h
    simp only [bridgeDetect] at h
    split_ifs at h with h1 h2 h3
    · rw [Option.some.injEq] at h
      subst h
      simp
    · rw [Option.some.injEq] at h
      subst h
      exact scan_indicators bridgeTieTol sp sc w
        (bridgePrevFiltered df pe ce sp sc ss se)
        (bridgeCurrFiltered df pe ce sp sc ss se)
        (bridgeRefined df pe ce sp sc ss se w step cf)

/-- Witness for C8 at a concrete input: the brute-force detector on a
two-runner table returns a result with 4 hits, and the indicators agree. -/
theorem c8_empty_indicators_agree_witness :
    detect_segment_overlap [⟨"A", 1, 10⟩, ⟨"B", 2, 5⟩] "A" "B" 0 (5/4) 0 1 60 (1/10)
      = some ⟨0, 1, 1, 1, some (1, 1/10, 1, 2), 4, 2, {1}, {2}, 1⟩ ∧
    ((some (1, (1:ℚ)/10, 1, 2) = (none : Option (ℚ × ℚ × ℕ × ℕ)) ↔ (4 : ℕ) = 0) ∧
      ((4 : ℕ) = 0 ↔ (1 : ℕ) = 0) ∧
      (some (1, (1:ℚ)/10, 1, 2) = (none : Option (ℚ × ℚ × ℕ × ℕ)) → (2 : ℕ) = 0)) := by
  refine ⟨by decide, ?_⟩
  exact c8_empty_indicators_agree.1 [⟨"A", 1, 10⟩, ⟨"B", 2, 5⟩] "A" "B" 0 (5/4) 0 1 60 (1/10)
    ⟨0, 1, 1, 1, some (1, 1/10, 1, 2), 4, 2, {1}, {2}, 1⟩ (by decide)

/-- C3: the coarse-to-fine detector returns `None` exactly when one side's
population is empty - either no rows for the event, or every row eliminated
by the arrival-interval pre-filter - and, when both sides survive but no
coarse km is a candidate, it returns the zero-result
(`cumulative_overlap_events = 0`, `peak_congestion = 0`,
`first_overlap = None`), distinguishing "checked, no overlap" from "no
runners present". -/
theorem c3_none_iff_empty_population :
    ∀ df pe ce sp sc ss se w step cf,
      (bridgeDetect df pe ce sp sc ss se w step cf = none ↔
        eventRows df pe = [] ∨ eventRows df ce = [] ∨
        bridgePrevFiltered df pe ce sp sc ss se = [] ∨
        bridgeCurrFiltered df pe ce sp sc ss se = []) ∧
      (bridgePrevFiltered df pe ce sp sc ss se ≠ [] →
        bridgeCurrFiltered df pe ce sp sc ss se ≠ [] →
        bridgeCandidates df pe ce sp sc ss se w step cf = [] →
        bridgeDetect df pe ce sp sc ss se w step cf =
          some ⟨ss, se, (bridgePrevFiltered df pe ce sp sc ss se).length,
            (bridgeCurrFiltered df pe ce sp sc ss se).length, none, 0, 0, 0⟩) := by
  intro df pe ce sp sc ss se w step cf
  constructor
  · simp only [bridgeDetect]
    split_ifs with h1 h2 h3
    · simp only [Bool.or_eq_true, List.isEmpty_iff] at h1
      exact ⟨fun _ => by tauto, fun _ => rfl⟩
    · simp only [Bool.or_eq_true, List.isEmpty_iff] at h2
      exact ⟨fun _ => by tauto, fun _ => rfl⟩
    · simp only [Bool.or_eq_true, List.isEmpty_iff] at h1 h2
      push_neg at h1 h2
      constructor
      · intro h; simp at h
      · intro h
        rcases h with h | h | h | h
        · exact absurd h h1.1
        · exact absurd h h1.2
        · exact absurd h h2.1
        · exact absurd h h2.2
    · simp only [Bool.or_eq_true, List.isEmpty_iff] at h1 h2
      push_neg at h1 h2
      constructor
      · intro h; simp at h
      · intro h
        rcases h with h | h | h | h
        · exact absurd h h1.1
        · exact absurd h h1.2
        · exact absurd h h2.1
        · exact absurd h h2.2
  · intro hp hc hcand
    simp only [bridgeDetect]
    split_ifs with h1 h2 h3
    · simp only [Bool.or_eq_true, List.isEmpty_iff] at h1
      rcases h1 with h | h
      · exact absurd (by simp [bridgePrevFiltered, h]) hp
      · exact absurd (by simp [bridgeCurrFiltered, h]) hc
    · simp only [Bool.or_eq_true, List.isEmpty_iff] at h2
      tauto
    · rfl
    · rw [List.isEmpty_iff] at h3
      exact absurd hcand h3

/-- Witness for C3 at a concrete input: the pre-filter keeps both runners and
no coarse km is a candidate, so the detector returns the zero-result rather
than `None`. -/
theorem c3_none_iff_empty_population_witness :
    bridgePrevFiltered [⟨"A", 1, 10⟩, ⟨"B", 2, 5⟩] "A" "B" 0 (5/4) 0 1 ≠ [] ∧
    bridgeCurrFiltered [⟨"A", 1, 10⟩, ⟨"B", 2, 5⟩] "A" "B" 0 (5/4) 0 1 ≠ [] ∧
    bridgeCandidates [⟨"A", 1, 10⟩, ⟨"B", 2, 5⟩] "A" "B" 0 (5/4) 0 1 60 (1/10) 5 = [] ∧
    bridgeDetect [⟨"A", 1, 10⟩, ⟨"B", 2, 5⟩] "A" "B" 0 (5/4) 0 1 60 (1/10) 5 =
      some ⟨0, 1, 1, 1, none, 0, 0, 0⟩ := by
  refine ⟨by decide, by decide, by decide, ?_⟩
  have h := (c3_none_iff_empty_population [⟨"A", 1, 10⟩, ⟨"B", 2, 5⟩] "A" "B"
    0 (5/4) 0 1 60 (1/10) 5).2 (by decide) (by decide) (by decide)
  have hlen : (bridgePrevFiltered [⟨"A", 1, 10⟩, ⟨"B", 2, 5⟩] "A" "B" 0 (5/4) 0 1).length
      = 1 := by decide
  have hlen2 : (bridgeCurrFiltered [⟨"A", 1, 10⟩, ⟨"B", 2, 5⟩] "A" "B" 0 (5/4) 0 1).length
      = 1 := by decide
  rw [hlen, hlen2] at h
  exact h

/-- C10: whenever the coarse-to-fine detector returns a non-None result, both
stored populations count at least one runner, so the denominator
`total_prev + total_curr` of the `peak_congestion_ratio` division in
`bridge._process_segment` (bridge.py line 141) is strictly positive: the
division cannot divide by zero. -/
theorem c10_peak_ratio_denominator_positive :
    ∀ df pe ce sp sc ss se w step cf (r : BridgeResult),
      bridgeDetect df pe ce sp sc ss se w step cf = some r →
      1 ≤ r.total_prev ∧ 1 ≤ r.total_curr ∧ 0 < peakRatioDenom r := by
  intro df pe ce sp sc ss se w step cf r h
  simp only [bridgeDetect] at h
  split_ifs at h with h1 h2 h3
  all_goals
    simp only [Bool.or_eq_true, List.isEmpty_iff] at h2
    push_neg at h2
    rw [Option.some.injEq] at h
    subst h
    have hp := List.length_pos.mpr h2.1
    have hc := List.length_pos.mpr h2.2
    exact ⟨hp, hc, by simp only [peakRatioDenom]; omega⟩

/-- Witness for C10 at a concrete input. -/
theorem c10_peak_ratio_denominator_positive_witness :
    bridgeDetect [⟨"A", 1, 10⟩, ⟨"B", 2, 5⟩] "A" "B" 0 (5/4) 0 1 60 (1/10) 5 =
      some ⟨0, 1, 1, 1, none, 0, 0, 0⟩ ∧
    (1 ≤ 1 ∧ 1 ≤ 1 ∧ 0 < peakRatioDenom ⟨0, 1, 1, 1, none, 0, 0, 0⟩) := by
  refine ⟨by decide, ?_⟩
  exact c10_peak_ratio_denominator_positive [⟨"A", 1, 10⟩, ⟨"B", 2, 5⟩] "A" "B"
    0 (5/4) 0 1 60 (1/10) 5 ⟨0, 1, 1, 1, none, 0, 0, 0⟩ (by decide)

/-- C2 (code bug): `engine.analyze_overlaps`, called with well-formed column
sets, one overlap row and start times covering both referenced events,
raises `NameError: name 'step' is not defined` instead of returning its
result dict: line 269 of engine.py passes the undefined name `step` (the
parameter is `step_km`) to `_detect_segment_overlap` the first time an
overlap row is processed. -/
theorem c2_engine_raises_name_error :
    engineAnalyzeOverlaps [colEvent, colRunnerId, colPace, "distance"]
      [colEvent, colStart, colEnd, colOverlapsWith]
      [⟨"A", "B", 0, 1⟩] [("A", 420), ("B", 440)]
      = Except.error "NameError: name 'step' is not defined" := rfl

/-! ## Helper lemmas: rounding -/

theorem roundHalfEven_bounds (x : ℚ) :
    ⌊x⌋ ≤ roundHalfEven x ∧ roundHalfEven x ≤ ⌊x⌋ + 1 := by
  unfold roundHalfEven
  split_ifs <;> omega

theorem roundHalfEven_mono {x y : ℚ} (h : x ≤ y) :
    roundHalfEven x ≤ roundHalfEven y := by
  have hf : ⌊x⌋ ≤ ⌊y⌋ := Int.floor_le_floor h
  rcases lt_or_eq_of_le hf with hlt | heq
  · have h1 := (roundHalfEven_bounds x).2
    have h2 := (roundHalfEven_bounds y).1
    omega
  · unfold roundHalfEven
    rw [← heq]
    have hxy : x - ⌊x⌋ ≤ y - ⌊x⌋ := by linarith
    split_ifs <;> first | omega | linarith

theorem roundTo_mono {x y : ℚ} (d : ℕ) (h : x ≤ y) : roundTo x d ≤ roundTo y d := by
  unfold roundTo
  have hp : (0 : ℚ) < 10 ^ d := by positivity
  have hm : roundHalfEven (x * 10 ^ d) ≤ roundHalfEven (y * 10 ^ d) :=
    roundHalfEven_mono (by nlinarith)
  gcongr

/-- C7: holding the three zone shares fixed, the 0-10 congestion index of
`_congestion_index` (density.py lines 66-75) is monotonically non-decreasing
in the peak areal density. -/
theorem c7_congestion_index_monotone :
    ∀ d1 d2 share_amber share_red share_dark : ℚ, d1 ≤ d2 →
      congestionIndex d1 share_amber share_red share_dark ≤
        congestionIndex d2 share_amber share_red share_dark := by
  intro d1 d2 sa sr sd h
  unfold congestionIndex
  have e1 : ∀ d : ℚ, 2 * (d - 1) / (1/2) = 4 * d - 4 := fun d => by ring
  have e2 : ∀ d : ℚ, 2 + 2 * (d - 3/2) / (1/2) = 4 * d - 4 := fun d => by ring
  have e3 : ∀ d : ℚ, 4 + 1 * (min d 3 - 2) / 1 = 2 + min d 3 := fun d => by ring
  simp only [e1, e2, e3]
  apply roundTo_mono
  apply min_le_min le_rfl
  apply add_le_add ?_ le_rfl
  apply max_le_max le_rfl
  apply min_le_min le_rfl
  split_ifs <;>
    first
    | linarith
    | (have hm1 : (2:ℚ) ≤ min d2 3 := le_min (by linarith) (by norm_num)
       have hm2 : min d1 3 ≤ min d2 3 := min_le_min h le_rfl
       linarith)

/-- Witness for C7 at concrete inputs: density 1 scores 0, density 2 scores
4 with all shares zero. -/
theorem c7_congestion_index_monotone_witness :
    (1 : ℚ) ≤ 2 ∧ congestionIndex 1 0 0 0 ≤ congestionIndex 2 0 0 0 :=
  ⟨by norm_num, c7_congestion_index_monotone 1 2 0 0 0 (by norm_num)⟩

/-! ## Helper lemmas: zone totals -/

theorem zoneAdd_sum (z : ℚ × ℚ × ℚ × ℚ) (s : DensityStep) :
    (zoneAdd z s).1 + (zoneAdd z s).2.1 + (zoneAdd z s).2.2.1 + (zoneAdd z s).2.2.2
      = z.1 + z.2.1 + z.2.2.1 + z.2.2.2 + STEP_KM_DEFAULT := by
  unfold zoneAdd
  split <;> dsimp only <;> ring

theorem zoneFold_sum (steps : List DensityStep) : ∀ z : ℚ × ℚ × ℚ × ℚ,
    (steps.foldl zoneAdd z).1 + (steps.foldl zoneAdd z).2.1 +
      (steps.foldl zoneAdd z).2.2.1 + (steps.foldl zoneAdd z).2.2.2
      = z.1 + z.2.1 + z.2.2.1 + z.2.2.2 + (steps.length : ℚ) * STEP_KM_DEFAULT := by
  induction steps with
  | nil => intro z; simp
  | cons s ss ih =>
    intro z
    rw [List.foldl_cons, ih (zoneAdd z s), zoneAdd_sum]
    simp only [List.length_cons]
    push_cast
    ring

theorem zoneShareSum_eq (steps : List DensityStep) (seg : DensitySegment) :
    zoneShareSum steps seg =
      (steps.length : ℚ) * STEP_KM_DEFAULT /
        max (1/1000000000) (seg.km_to - seg.km_from) := by
  unfold zoneShareSum
  dsimp only
  rw [div_add_div_same, div_add_div_same, div_add_div_same]
  have h := zoneFold_sum steps (0, 0, 0, 0)
  simp only [zoneTotals]
  rw [h]
  norm_num

theorem roundHalfEven_close (x : ℚ) : |(roundHalfEven x : ℚ) - x| ≤ 1/2 := by
  unfold roundHalfEven
  have h1 : (⌊x⌋ : ℚ) ≤ x := Int.floor_le x
  have h2 : x < ⌊x⌋ + 1 := Int.lt_floor_add_one x
  split_ifs with a b c <;> rw [abs_le] <;> constructor <;> push_cast <;> linarith

theorem computeDensitySteps_length (df : List PaceRow) (seg : DensitySegment)
    (st : List (String × ℤ)) (s w : ℚ) :
    (computeDensitySteps df seg st s w).length
      = (max 0 (roundHalfEven ((seg.km_to - seg.km_from) / s))).toNat + 1 := by
  simp only [computeDensitySteps]
  split <;> simp only [List.length_map, binsList, List.length_range]

/-- C6 (amended): the four zone shares of `rollup_segment` always sum to
`len(steps) * STEP_KM_DEFAULT / length_km`, because the accumulation loop of
density.py lines 144-147 adds the fixed `STEP_KM_DEFAULT = 0.03` per step
regardless of the sampling step the inputs were generated with.  The sum is
within step rounding of 1.0 only when the steps were generated at the
default 0.03 km step: then it differs from 1 by at most `0.045 / length`.
For other sampling steps the claim fails (see the counterexample). -/
theorem c6_zone_share_sum :
    (∀ (steps : List DensityStep) (seg : DensitySegment),
        zoneShareSum steps seg =
          (steps.length : ℚ) * STEP_KM_DEFAULT /
            max (1/1000000000) (seg.km_to - seg.km_from)) ∧
    (∀ (df : List PaceRow) (seg : DensitySegment) (st : List (String × ℤ)) (w : ℚ),
        1/1000000000 ≤ seg.km_to - seg.km_from →
        |zoneShareSum (computeDensitySteps df seg st STEP_KM_DEFAULT w) seg - 1|
          ≤ (9/200) / (seg.km_to - seg.km_from)) := by
  constructor
  · exact zoneShareSum_eq
  · intro df seg st w hL
    have hL0 : (0 : ℚ) < seg.km_to - seg.km_from := lt_of_lt_of_le (by norm_num) hL
    have hmax : max (1/1000000000 : ℚ) (seg.km_to - seg.km_from)
        = seg.km_to - seg.km_from := max_eq_right hL
    have hx0 : (0 : ℚ) < (seg.km_to - seg.km_from) / STEP_KM_DEFAULT := by
      apply div_pos hL0
      norm_num [STEP_KM_DEFAULT]
    have hn0 : 0 ≤ roundHalfEven ((seg.km_to - seg.km_from) / STEP_KM_DEFAULT) := by
      have := (roundHalfEven_bounds ((seg.km_to - seg.km_from) / STEP_KM_DEFAULT)).1
      have hf : 0 ≤ ⌊(seg.km_to - seg.km_from) / STEP_KM_DEFAULT⌋ :=
        Int.floor_nonneg.mpr (le_of_lt hx0)
      omega
    have hmaxn : max 0 (roundHalfEven ((seg.km_to - seg.km_from) / STEP_KM_DEFAULT))
        = roundHalfEven ((seg.km_to - seg.km_from) / STEP_KM_DEFAULT) :=
      max_eq_right hn0
    rw [zoneShareSum_eq, hmax, computeDensitySteps_length, hmaxn]
    have hcast : (((roundHalfEven ((seg.km_to - seg.km_from) / STEP_KM_DEFAULT)).toNat
        + 1 : ℕ) : ℚ)
        = ((roundHalfEven ((seg.km_to - seg.km_from) / STEP_KM_DEFAULT) : ℚ) + 1) := by
      rw [Nat.cast_add, Nat.cast_one]
      congr 1
      exact_mod_cast Int.toNat_of_nonneg hn0
    rw [hcast]
    have hclose := roundHalfEven_close ((seg.km_to - seg.km_from) / STEP_KM_DEFAULT)
    have hD : ((seg.km_to - seg.km_from) / STEP_KM_DEFAULT) * STEP_KM_DEFAULT
        = seg.km_to - seg.km_from := by
      field_simp [STEP_KM_DEFAULT]
    have hkey : |((roundHalfEven ((seg.km_to - seg.km_from) / STEP_KM_DEFAULT) : ℚ) + 1)
        * STEP_KM_DEFAULT - (seg.km_to - seg.km_from)| ≤ 9/200 := by
      have heq : ((roundHalfEven ((seg.km_to - seg.km_from) / STEP_KM_DEFAULT) : ℚ) + 1)
          * STEP_KM_DEFAULT - (seg.km_to - seg.km_from)
          = ((roundHalfEven ((seg.km_to - seg.km_from) / STEP_KM_DEFAULT) : ℚ)
              - (seg.km_to - seg.km_from) / STEP_KM_DEFAULT) * STEP_KM_DEFAULT
            + STEP_KM_DEFAULT := by
        rw [sub_mul, hD]
        ring
      rw [heq]
      calc |((roundHalfEven ((seg.km_to - seg.km_from) / STEP_KM_DEFAULT) : ℚ)
              - (seg.km_to - seg.km_from) / STEP_KM_DEFAULT) * STEP_KM_DEFAULT
            + STEP_KM_DEFAULT|
          ≤ |((roundHalfEven ((seg.km_to - seg.km_from) / STEP_KM_DEFAULT) : ℚ)
              - (seg.km_to - seg.km_from) / STEP_KM_DEFAULT) * STEP_KM_DEFAULT|
            + |STEP_KM_DEFAULT| := abs_add _ _
        _ = |(roundHalfEven ((seg.km_to - seg.km_from) / STEP_KM_DEFAULT) : ℚ)
              - (seg.km_to - seg.km_from) / STEP_KM_DEFAULT| * STEP_KM_DEFAULT
            + STEP_KM_DEFAULT := by
            rw [abs_mul]
            norm_num [STEP_KM_DEFAULT, abs_of_pos]
        _ ≤ (1/2) * STEP_KM_DEFAULT + STEP_KM_DEFAULT := by
            have : (0:ℚ) < STEP_KM_DEFAULT := by norm_num [STEP_KM_DEFAULT]
            nlinarith
        _ = 9/200 := by norm_num [STEP_KM_DEFAULT]
    have hsub : ((roundHalfEven ((seg.km_to - seg.km_from) / STEP_KM_DEFAULT) : ℚ) + 1)
        * STEP_KM_DEFAULT / (seg.km_to - seg.km_from) - 1
        = (((roundHalfEven ((seg.km_to - seg.km_from) / STEP_KM_DEFAULT) : ℚ) + 1)
            * STEP_KM_DEFAULT - (seg.km_to - seg.km_from)) / (seg.km_to - seg.km_from) := by
      field_simp
    rw [hsub, abs_div, abs_of_pos hL0]
    gcongr

/-- C6 counterexample: steps generated at a 0.01 km sampling step over the
segment [0, 0.1] (11 steps, empty pace table, all green).  The four zone
shares sum to 3.3, not 1.0: far beyond one generating-step share of
rounding (1 + 0.01/0.1 = 1.1 < 3.3), because the rollup accumulates the
default 0.03 per step.  `rollup_segment` itself reports 0.33 green zone-km
for this 0.1 km segment. -/
theorem c6_zone_share_sum_counterexample :
    (computeDensitySteps [] ⟨"A", none, 0, 1/10, 3, "uni"⟩ [] (1/100) 60).length = 11 ∧
    zoneShareSum (computeDensitySteps [] ⟨"A", none, 0, 1/10, 3, "uni"⟩ [] (1/100) 60)
      ⟨"A", none, 0, 1/10, 3, "uni"⟩ = 33/10 ∧
    (rollupSegment (computeDensitySteps [] ⟨"A", none, 0, 1/10, 3, "uni"⟩ [] (1/100) 60)
      ⟨"A", none, 0, 1/10, 3, "uni"⟩).map (fun r => r.zones_km_green) = some (33/100) ∧
    (1 : ℚ) + (1/100) / (1/10) < 33/10 := by
  refine ⟨by decide, by decide, by decide, by norm_num⟩

/-- Witness for C6 at a concrete input: the default 0.03 step over [0, 1]
gives 34 steps and a share sum of 1.02, within the 0.045 bound. -/
theorem c6_zone_share_sum_witness :
    ((1 : ℚ)/1000000000 ≤ (1 : ℚ) - 0) ∧
    |zoneShareSum (computeDensitySteps [] ⟨"A", none, 0, 1, 3, "uni"⟩ [] STEP_KM_DEFAULT 60)
        ⟨"A", none, 0, 1, 3, "uni"⟩ - 1| ≤ (9/200) / ((1 : ℚ) - 0) :=
  ⟨by norm_num, c6_zone_share_sum.2 [] ⟨"A", none, 0, 1, 3, "uni"⟩ [] 60 (by norm_num)⟩

/-! ## Helper lemmas: stable sorting -/

theorem orderedInsert_filter_of_tied {α : Type*} (r : α → α → Prop) [DecidableRel r]
    (p : α → Bool) (h : ∀ a b, p a = true → p b = true → r a b) (a : α) :
    ∀ l : List α, (l.orderedInsert r a).filter p
      = if p a then a :: l.filter p else l.filter p := by
  intro l
  induction l with
  | nil => simp [List.orderedInsert, List.filter_cons]
  | cons b l ih =>
    rw [List.orderedInsert]
    by_cases hr : r a b
    · rw [if_pos hr]
      by_cases hpa : p a <;> simp [List.filter_cons, hpa]
    · rw [if_neg hr, List.filter_cons]
      by_cases hpb : p b
      · by_cases hpa : p a
        · exact absurd (h a b hpa hpb) hr
        · simp [hpa, hpb, ih, List.filter_cons]
      · simp [hpb, ih, List.filter_cons]

theorem insertionSort_filter_of_tied {α : Type*} (r : α → α → Prop) [DecidableRel r]
    (p : α → Bool) (h : ∀ a b, p a = true → p b = true → r a b) :
    ∀ l : List α, (List.insertionSort r l).filter p = l.filter p := by
  intro l
  induction l with
  | nil => rfl
  | cons a l ih =>
    rw [List.insertionSort, orderedInsert_filter_of_tied r p h a, ih, List.filter_cons]

/-- C4 (amended): the engine summary builder sorts descending by the chosen
metric with `peak` as a secondary descending key (pandas sorts several
columns with a stable lexicographic sort), so only records equal in both the
metric and `peak` keep their insertion order; records tied on the metric
alone are reordered by `peak` (see the counterexample).  The output is a
permutation of the input, sorted under `summaryBefore`, and the subsequence
of records with any fixed (metric, peak) key pair is preserved. -/
theorem c4_engine_rank_sorted_stable :
    ∀ (rank_by : String) (rows : List SummaryRow),
      (engineRank rank_by rows).Perm rows ∧
      List.Sorted (summaryBefore (normRank rank_by)) (engineRank rank_by rows) ∧
      ∀ (q : ℚ) (pk : ℕ),
        (engineRank rank_by rows).filter
            (fun r => decide (rankKey (normRank rank_by) r = q ∧ r.peak = pk))
          = rows.filter
            (fun r => decide (rankKey (normRank rank_by) r = q ∧ r.peak = pk)) := by
  intro rank_by rows
  refine ⟨List.perm_insertionSort _ rows, ?_, ?_⟩
  · haveI : IsTotal SummaryRow (summaryBefore (normRank rank_by)) := by
      constructor
      intro a b
      unfold summaryBefore
      rcases lt_trichotomy (rankKey (normRank rank_by) a) (rankKey (normRank rank_by) b)
        with h | h | h
      · exact Or.inr (Or.inl h)
      · rcases le_total b.peak a.peak with hp | hp
        · exact Or.inl (Or.inr ⟨h, hp⟩)
        · exact Or.inr (Or.inr ⟨h.symm, hp⟩)
      · exact Or.inl (Or.inl h)
    haveI : IsTrans SummaryRow (summaryBefore (normRank rank_by)) := by
      constructor
      intro a b c hab hbc
      unfold summaryBefore at hab hbc ⊢
      rcases hab with h1 | ⟨h1, h1p⟩ <;> rcases hbc with h2 | ⟨h2, h2p⟩
      · exact Or.inl (lt_trans h2 h1)
      · exact Or.inl (by rw [← h2]; exact h1)
      · exact Or.inl (by rw [h1]; exact h2)
      · exact Or.inr ⟨h1.trans h2, h2p.trans h1p⟩
    exact List.sorted_insertionSort _ rows
  · intro q pk
    apply insertionSort_filter_of_tied
    intro a b ha hb
    simp only [decide_eq_true_eq] at ha hb
    unfold summaryBefore
    right
    constructor
    · rw [ha.1, hb.1]
    · rw [ha.2, hb.2]

/-- C4 counterexample: two summary rows with equal intensity but different
peaks; ranked by intensity, engine.py's two-key sort places the higher-peak
record first, so records whose ranking key (the chosen metric) is equal do
not keep their insertion order. -/
theorem c4_stable_sort_counterexample :
    engineRank "intensity"
      [⟨"A vs B", 0, 1, "", 1, 4/5, 5, 5, 1⟩, ⟨"A vs C", 0, 1, "", 7, 3/10, 5, 5, 1⟩]
      = [⟨"A vs C", 0, 1, "", 7, 3/10, 5, 5, 1⟩, ⟨"A vs B", 0, 1, "", 1, 4/5, 5, 5, 1⟩] ∧
    rankKey (normRank "intensity") ⟨"A vs B", 0, 1, "", 1, 4/5, 5, 5, 1⟩
      = rankKey (normRank "intensity") ⟨"A vs C", 0, 1, "", 7, 3/10, 5, 5, 1⟩ ∧
    (⟨"A vs B", 0, 1, "", 1, 4/5, 5, 5, 1⟩ : SummaryRow)
      ≠ ⟨"A vs C", 0, 1, "", 7, 3/10, 5, 5, 1⟩ := by
  refine ⟨by decide, by decide, by decide⟩

/-! ## Helper lemmas: peak id sets -/

theorem mem_allPairs {P C : List PaceRow} {pc : PaceRow × PaceRow}
    (h : pc ∈ allPairs P C) : pc.1 ∈ P ∧ pc.2 ∈ C := by
  unfold allPairs at h
  rw [List.mem_flatten] at h
  rcases h with ⟨l, hl, hpc⟩
  rw [List.mem_map] at hl
  rcases hl with ⟨p, hp, rfl⟩
  rw [List.mem_map] at hpc
  rcases hpc with ⟨c, hc, rfl⟩
  exact ⟨hp, hc⟩

theorem prevIdsAt_subset (sp sc w km : ℚ) (P C : List PaceRow) :
    prevIdsAt sp sc w km P C ⊆ (P.map PaceRow.runner_id).toFinset := by
  intro x hx
  rw [prevIdsAt, List.mem_toFinset, List.mem_map] at hx
  rcases hx with ⟨pc, hpc, rfl⟩
  rw [List.mem_toFinset, List.mem_map]
  exact ⟨pc.1, (mem_allPairs (List.mem_of_mem_filter hpc)).1, rfl⟩

theorem currIdsAt_subset (sp sc w km : ℚ) (P C : List PaceRow) :
    currIdsAt sp sc w km P C ⊆ (C.map PaceRow.runner_id).toFinset := by
  intro x hx
  rw [currIdsAt, List.mem_toFinset, List.mem_map] at hx
  rcases hx with ⟨pc, hpc, rfl⟩
  rw [List.mem_toFinset, List.mem_map]
  exact ⟨pc.2, (mem_allPairs (List.mem_of_mem_filter hpc)).2, rfl⟩

theorem scanStep_peak_prev (tieTol sp sc w : ℚ) (P C : List PaceRow)
    (st : ScanState) (km : ℚ) :
    (scanStep tieTol sp sc w P C st km).peak_prev
      = if totAt sp sc w km P C > st.peak then prevIdsAt sp sc w km P C
        else st.peak_prev := rfl

theorem scanStep_peak_curr (tieTol sp sc w : ℚ) (P C : List PaceRow)
    (st : ScanState) (km : ℚ) :
    (scanStep tieTol sp sc w P C st km).peak_curr
      = if totAt sp sc w km P C > st.peak then currIdsAt sp sc w km P C
        else st.peak_curr := rfl

theorem scanStep_peak_ite (tieTol sp sc w : ℚ) (P C : List PaceRow)
    (st : ScanState) (km : ℚ) :
    (scanStep tieTol sp sc w P C st km).peak
      = if totAt sp sc w km P C > st.peak then totAt sp sc w km P C
        else st.peak := rfl

theorem scan_peak_sets (tieTol sp sc w : ℚ) (P C : List PaceRow) (kms : List ℚ) :
    ∀ st : ScanState,
      st.peak = st.peak_prev.card + st.peak_curr.card →
      st.peak_prev ⊆ (P.map PaceRow.runner_id).toFinset →
      st.peak_curr ⊆ (C.map PaceRow.runner_id).toFinset →
      ((kms.foldl (scanStep tieTol sp sc w P C) st).peak
          = (kms.foldl (scanStep tieTol sp sc w P C) st).peak_prev.card
            + (kms.foldl (scanStep tieTol sp sc w P C) st).peak_curr.card) ∧
      (kms.foldl (scanStep tieTol sp sc w P C) st).peak_prev
        ⊆ (P.map PaceRow.runner_id).toFinset ∧
      (kms.foldl (scanStep tieTol sp sc w P C) st).peak_curr
        ⊆ (C.map PaceRow.runner_id).toFinset := by
  induction kms with
  | nil => intro st h1 h2 h3; exact ⟨h1, h2, h3⟩
  | cons k ks ih =>
    intro st h1 h2 h3
    rw [List.foldl_cons]
    by_cases hc : totAt sp sc w k P C > st.peak
    · exact ih _ (by rw [scanStep_peak_ite, scanStep_peak_prev, scanStep_peak_curr,
          if_pos hc, if_pos hc, if_pos hc]; rfl)
        (by rw [scanStep_peak_prev, if_pos hc]; exact prevIdsAt_subset sp sc w k P C)
        (by rw [scanStep_peak_curr, if_pos hc]; exact currIdsAt_subset sp sc w k P C)
    · exact ih _ (by rw [scanStep_peak_ite, scanStep_peak_prev, scanStep_peak_curr,
          if_neg hc, if_neg hc, if_neg hc]; exact h1)
        (by rw [scanStep_peak_prev, if_neg hc]; exact h2)
        (by rw [scanStep_peak_curr, if_neg hc]; exact h3)

theorem dictUpsert_subset {l0 acc : List PaceRow} {r : PaceRow}
    (ha : ∀ x ∈ acc, x ∈ l0) (hr : r ∈ l0) :
    ∀ x ∈ dictUpsert acc r, x ∈ l0 := by
  intro y hy
  unfold dictUpsert at hy
  split_ifs at hy with hc
  · rw [List.mem_map] at hy
    rcases hy with ⟨s, hs, hcond⟩
    by_cases h2 : (s.runner_id == r.runner_id) = true
    · rw [if_pos h2] at hcond
      exact hcond ▸ hr
    · rw [if_neg h2] at hcond
      exact hcond ▸ ha s hs
  · rw [List.mem_append] at hy
    rcases hy with hy | hy
    · exact ha y hy
    · rw [List.mem_singleton] at hy
      exact hy ▸ hr

theorem dictRows_subset (l : List PaceRow) : ∀ x ∈ dictRows l, x ∈ l := by
  have aux : ∀ (rest acc : List PaceRow),
      (∀ x ∈ acc, x ∈ l) → (∀ x ∈ rest, x ∈ l) →
      ∀ x ∈ rest.foldl dictUpsert acc, x ∈ l := by
    intro rest
    induction rest with
    | nil => intro acc ha _ x hx; exact ha x hx
    | cons r rs ih =>
      intro acc ha hr x hx
      rw [List.foldl_cons] at hx
      exact ih (dictUpsert acc r)
        (dictUpsert_subset ha (hr r (List.mem_cons_self _ _)))
        (fun y hy => hr y (List.mem_cons_of_mem _ hy)) x hx
  exact aux l [] (by intro x hx; exact absurd hx (List.not_mem_nil x)) (fun x hx => hx)

theorem dictRows_ids_subset (l : List PaceRow) :
    ((dictRows l).map PaceRow.runner_id).toFinset
      ⊆ (l.map PaceRow.runner_id).toFinset := by
  intro x hx
  rw [List.mem_toFinset, List.mem_map] at hx
  rcases hx with ⟨y, hy, rfl⟩
  rw [List.mem_toFinset, List.mem_map]
  exact ⟨y, dictRows_subset l y hy, rfl⟩

/-- C9: for every non-None result of the full-resolution detector, the peak
id sets are consistent with the peak count
(`len(peak_prev_at_peak) + len(peak_curr_at_peak) == peak_congestion`) and
are subsets of the prev / curr `runner_id` populations. -/
theorem c9_peak_sets_consistent :
    ∀ df pe ce sp sc ss se w step (r : DetectionResult),
      detect_segment_overlap df pe ce sp sc ss se w step = some r →
      r.peak_prev_at_peak.card + r.peak_curr_at_peak.card = r.peak_congestion ∧
      r.peak_prev_at_peak ⊆ ((eventRows df pe).map PaceRow.runner_id).toFinset ∧
      r.peak_curr_at_peak ⊆ ((eventRows df ce).map PaceRow.runner_id).toFinset := by
  intro df pe ce sp sc ss se w step r h
  simp only [detect_segment_overlap] at h
  split_ifs at h with h1
  rw [Option.some.injEq] at h
  subst h
  have hinv := scan_peak_sets detectTieTol sp sc w (dictRows (eventRows df pe))
    (dictRows (eventRows df ce)) (npArange ss (se + gridEps) step) initScan
    (by rfl) (by intro x hx; exact absurd hx (Finset.not_mem_empty x))
    (by intro x hx; exact absurd hx (Finset.not_mem_empty x))
  exact ⟨hinv.1.symm,
    subset_trans hinv.2.1 (dictRows_ids_subset (eventRows df pe)),
    subset_trans hinv.2.2 (dictRows_ids_subset (eventRows df ce))⟩

/-- Witness for C9 at a concrete input: the detector stores peak sets {1}
and {2} with peak congestion 2. -/
theorem c9_peak_sets_consistent_witness :
    detect_segment_overlap [⟨"A", 1, 10⟩, ⟨"B", 2, 5⟩] "A" "B" 0 (5/4) 0 1 60 (1/10)
      = some ⟨0, 1, 1, 1, some (1, 1/10, 1, 2), 4, 2, {1}, {2}, 1⟩ ∧
    (({1} : Finset ℕ).card + ({2} : Finset ℕ).card = 2 ∧
      ({1} : Finset ℕ)
        ⊆ ((eventRows [⟨"A", 1, 10⟩, ⟨"B", 2, 5⟩] "A").map PaceRow.runner_id).toFinset ∧
      ({2} : Finset ℕ)
        ⊆ ((eventRows [⟨"A", 1, 10⟩, ⟨"B", 2, 5⟩] "B").map PaceRow.runner_id).toFinset) := by
  refine ⟨by decide, ?_⟩
  exact c9_peak_sets_consistent [⟨"A", 1, 10⟩, ⟨"B", 2, 5⟩] "A" "B" 0 (5/4) 0 1 60 (1/10)
    ⟨0, 1, 1, 1, some (1, 1/10, 1, 2), 4, 2, {1}, {2}, 1⟩ (by decide)

/-! ## Helper lemmas: grids -/

theorem mem_npArange {s : ℚ} (hs : 0 < s) (a b x : ℚ) :
    x ∈ npArange a b s ↔ (∃ m : ℕ, x = a + m * s) ∧ x < b := by
  unfold npArange
  rw [List.mem_map]
  constructor
  · rintro ⟨i, hi, rfl⟩
    rw [List.mem_range, Int.lt_toNat] at hi
    refine ⟨⟨i, rfl⟩, ?_⟩
    have h1 : (i : ℚ) ≤ (⌈(b - a) / s⌉ : ℚ) - 1 := by
      have : (i : ℤ) ≤ ⌈(b - a) / s⌉ - 1 := by omega
      exact_mod_cast this
    have h2 : (⌈(b - a) / s⌉ : ℚ) - 1 < (b - a) / s := by
      have := Int.ceil_lt_add_one ((b - a) / s)
      linarith
    have h3 : (i : ℚ) < (b - a) / s := lt_of_le_of_lt h1 h2
    have h4 : (i : ℚ) * s < b - a := (lt_div_iff hs).mp h3
    linarith
  · rintro ⟨⟨m, rfl⟩, hlt⟩
    refine ⟨m, ?_, rfl⟩
    rw [List.mem_range, Int.lt_toNat]
    rw [Int.lt_ceil]
    push_cast
    rw [lt_div_iff hs]
    linarith

theorem npArange_nodup {s : ℚ} (hs : 0 < s) (a b : ℚ) : (npArange a b s).Nodup := by
  unfold npArange
  apply List.Nodup.map ?_ (List.nodup_range _)
  intro i j hij
  have h1 : (i : ℚ) * s = (j : ℚ) * s := by
    have := hij
    dsimp at this
    linarith [this]
  have h2 : (i : ℚ) = j := mul_right_cancel₀ (ne_of_gt hs) h1
  exact_mod_cast h2

theorem mem_npUnique (l : List ℚ) (x : ℚ) : x ∈ npUnique l ↔ x ∈ l := by
  unfold npUnique
  rw [(List.perm_insertionSort _ l.dedup).mem_iff, List.mem_dedup]

theorem npUnique_nodup (l : List ℚ) : (npUnique l).Nodup :=
  (l.nodup_dedup).perm (List.perm_insertionSort _ l.dedup).symm

/-! ## Helper lemmas: hit monotonicity -/

theorem allPairs_sublist {P' P C' C : List PaceRow} (hP : P'.Sublist P)
    (hC : C'.Sublist C) : (allPairs P' C').Sublist (allPairs P C) := by
  unfold allPairs
  induction hP with
  | slnil => exact List.nil_sublist _
  | cons p h ih =>
    simp only [List.map_cons, List.flatten_cons]
    exact ih.trans (List.sublist_append_right _ _)
  | cons₂ p h ih =>
    simp only [List.map_cons, List.flatten_cons]
    exact List.Sublist.append (List.Sublist.map _ hC) ih

theorem stepHits_sublist (sp sc w km : ℚ) {P' P C' C : List PaceRow}
    (hP : P'.Sublist P) (hC : C'.Sublist C) :
    (stepHits sp sc w km P' C').Sublist (stepHits sp sc w km P C) :=
  List.Sublist.filter _ (allPairs_sublist hP hC)

theorem stepHits_window (sp sc km : ℚ) {w1 w2 : ℚ} (hw : w1 ≤ w2)
    (P C : List PaceRow) :
    (stepHits sp sc w1 km P C).Sublist (stepHits sp sc w2 km P C) := by
  unfold stepHits
  apply List.monotone_filter_right
  intro pc hpc
  rw [decide_eq_true_eq] at hpc ⊢
  exact le_trans hpc hw

theorem stepHits_mono (sp sc km : ℚ) {w1 w2 : ℚ} (hw : w1 ≤ w2)
    {P' P C' C : List PaceRow} (hP : P'.Sublist P) (hC : C'.Sublist C) :
    (stepHits sp sc w1 km P' C').Sublist (stepHits sp sc w2 km P C) :=
  (stepHits_sublist sp sc w1 km hP hC).trans (stepHits_window sp sc km hw P C)

theorem stepHits_ne_nil_mono (sp sc km : ℚ) {w1 w2 : ℚ} (hw : w1 ≤ w2)
    {P' P C' C : List PaceRow} (hP : P'.Sublist P) (hC : C'.Sublist C)
    (h : stepHits sp sc w1 km P' C' ≠ []) : stepHits sp sc w2 km P C ≠ [] := by
  intro hnil
  have := stepHits_mono sp sc km hw hP hC
  rw [hnil] at this
  exact h (List.sublist_nil.mp this)

theorem prevIdsAt_mono (sp sc km : ℚ) {w1 w2 : ℚ} (hw : w1 ≤ w2)
    {P' P C' C : List PaceRow} (hP : P'.Sublist P) (hC : C'.Sublist C) :
    prevIdsAt sp sc w1 km P' C' ⊆ prevIdsAt sp sc w2 km P C := by
  intro x hx
  rw [prevIdsAt, List.mem_toFinset, List.mem_map] at hx ⊢
  rcases hx with ⟨pc, hpc, rfl⟩
  exact ⟨pc, (stepHits_mono sp sc km hw hP hC).subset hpc, rfl⟩

theorem currIdsAt_mono (sp sc km : ℚ) {w1 w2 : ℚ} (hw : w1 ≤ w2)
    {P' P C' C : List PaceRow} (hP : P'.Sublist P) (hC : C'.Sublist C) :
    currIdsAt sp sc w1 km P' C' ⊆ currIdsAt sp sc w2 km P C := by
  intro x hx
  rw [currIdsAt, List.mem_toFinset, List.mem_map] at hx ⊢
  rcases hx with ⟨pc, hpc, rfl⟩
  exact ⟨pc, (stepHits_mono sp sc km hw hP hC).subset hpc, rfl⟩

theorem pairIdsAt_mono (sp sc km : ℚ) {w1 w2 : ℚ} (hw : w1 ≤ w2)
    {P' P C' C : List PaceRow} (hP : P'.Sublist P) (hC : C'.Sublist C) :
    pairIdsAt sp sc w1 km P' C' ⊆ pairIdsAt sp sc w2 km P C := by
  intro x hx
  rw [pairIdsAt, List.mem_toFinset, List.mem_map] at hx ⊢
  rcases hx with ⟨pc, hpc, rfl⟩
  exact ⟨pc, (stepHits_mono sp sc km hw hP hC).subset hpc, rfl⟩

theorem totAt_mono (sp sc km : ℚ) {w1 w2 : ℚ} (hw : w1 ≤ w2)
    {P' P C' C : List PaceRow} (hP : P'.Sublist P) (hC : C'.Sublist C) :
    totAt sp sc w1 km P' C' ≤ totAt sp sc w2 km P C :=
  Nat.add_le_add (Finset.card_le_card (prevIdsAt_mono sp sc km hw hP hC))
    (Finset.card_le_card (currIdsAt_mono sp sc km hw hP hC))

theorem sum_le_of_grid_subset {A B : List ℚ} (hA : A.Nodup) (hB : B.Nodup)
    (hsub : ∀ x ∈ A, x ∈ B) (f g : ℚ → ℕ) (hfg : ∀ x ∈ A, f x ≤ g x) :
    (A.map f).sum ≤ (B.map g).sum := by
  rw [← List.sum_toFinset f hA, ← List.sum_toFinset g hB]
  calc A.toFinset.sum f ≤ A.toFinset.sum g :=
        Finset.sum_le_sum fun x hx => hfg x (List.mem_toFinset.mp hx)
    _ ≤ B.toFinset.sum g :=
        Finset.sum_le_sum_of_subset fun x hx =>
          List.mem_toFinset.mpr (hsub x (List.mem_toFinset.mp hx))

/-! ## Helper lemmas: the range merge preserves the refined point set -/

theorem lattice_le {a0 s : ℚ} (hs : 0 < s) {ma mc : ℕ}
    (h : a0 + (ma : ℚ) * s ≤ a0 + (mc : ℚ) * s) : ma ≤ mc := by
  by_contra hh
  push_neg at hh
  have hq : (mc : ℚ) < ma := by exact_mod_cast hh
  nlinarith

theorem gridEps_pos : (0 : ℚ) < gridEps := by norm_num [gridEps]

theorem mem_arange_merge {s : ℚ} (hs : 0 < s) {a0 a c b d : ℚ} {ma mc : ℕ}
    (ha : a = a0 + ma * s) (hc : c = a0 + mc * s) (hac : a ≤ c) (hcb : c ≤ b)
    (x : ℚ) :
    x ∈ npArange a (max b d + gridEps) s ↔
      x ∈ npArange a (b + gridEps) s ∨ x ∈ npArange c (d + gridEps) s := by
  have hmm : ma ≤ mc := lattice_le hs (by rw [← ha, ← hc]; exact hac)
  rw [mem_npArange hs, mem_npArange hs, mem_npArange hs]
  constructor
  · rintro ⟨⟨j, rfl⟩, hlt⟩
    by_cases hb : a + (j : ℚ) * s < b + gridEps
    · exact Or.inl ⟨⟨j, rfl⟩, hb⟩
    · push_neg at hb
      have hmax : max b d = d := by
        rcases max_choice b d with h | h
        · rw [h] at hlt; linarith
        · exact h
      have hcx : c < a + (j : ℚ) * s := by
        have := gridEps_pos
        linarith
      have hlt2 : (mc : ℚ) < (ma : ℚ) + j := by
        rw [ha, hc] at hcx
        nlinarith
      have hnat : mc < ma + j := by exact_mod_cast hlt2
      refine Or.inr ⟨⟨ma + j - mc, ?_⟩, by rw [← hmax]; exact hlt⟩
      have hcast : ((ma + j - mc : ℕ) : ℚ) = (ma : ℚ) + j - mc := by
        push_cast [Nat.cast_sub (le_of_lt hnat)]
        ring
      rw [hc, hcast, ha]
      ring
  · rintro (⟨⟨j, rfl⟩, hlt⟩ | ⟨⟨j, rfl⟩, hlt⟩)
    · exact ⟨⟨j, rfl⟩, lt_of_lt_of_le hlt (by have := le_max_left b d; linarith)⟩
    · refine ⟨⟨mc - ma + j, ?_⟩, ?_⟩
      · have hcast : ((mc - ma + j : ℕ) : ℚ) = (mc : ℚ) - ma + j := by
          push_cast [Nat.cast_sub hmm]
          ring
        rw [hcast, ha, hc]
        ring
      · have := le_max_right b d
        linarith

theorem mergeRangesGo_pts {s : ℚ} (hs : 0 < s) (a0 : ℚ) :
    ∀ (rs : List (ℚ × ℚ)) (cur : ℚ × ℚ),
      (∃ m : ℕ, cur.1 = a0 + m * s) →
      (∀ r ∈ rs, ∃ m : ℕ, r.1 = a0 + m * s) →
      (∀ r ∈ rs, cur.1 ≤ r.1) →
      rs.Pairwise (fun r t => r.1 ≤ t.1) →
      ∀ x, (∃ r ∈ mergeRangesGo cur rs, x ∈ npArange r.1 (r.2 + gridEps) s) ↔
        (x ∈ npArange cur.1 (cur.2 + gridEps) s ∨
          ∃ r ∈ rs, x ∈ npArange r.1 (r.2 + gridEps) s) := by
  intro rs
  induction rs with
  | nil =>
    intro cur _ _ _ _ x
    simp [mergeRangesGo]
  | cons r rest ih =>
    intro cur hcur hall hle hpair x
    rw [mergeRangesGo]
    rcases hcur with ⟨mcur, hcur⟩
    rcases hall r (List.mem_cons_self _ _) with ⟨mr, hr⟩
    by_cases hcase : r.1 ≤ cur.2
    · rw [if_pos hcase]
      rw [ih (cur.1, max cur.2 r.2) ⟨mcur, hcur⟩
        (fun t ht => hall t (List.mem_cons_of_mem _ ht))
        (fun t ht => le_trans (hle r (List.mem_cons_self _ _))
          (List.rel_of_pairwise_cons hpair ht))
        (List.Pairwise.of_cons hpair) x]
      have hmerge := @mem_arange_merge s hs a0 cur.1 r.1 cur.2 r.2 mcur mr hcur hr
        (hle r (List.mem_cons_self _ _)) hcase x
      constructor
      · rintro (h | h)
        · rcases hmerge.mp h with h2 | h2
          · exact Or.inl h2
          · exact Or.inr ⟨r, List.mem_cons_self _ _, h2⟩
        · rcases h with ⟨t, ht, hxt⟩
          exact Or.inr ⟨t, List.mem_cons_of_mem _ ht, hxt⟩
      · rintro (h | ⟨t, ht, hxt⟩)
        · exact Or.inl (hmerge.mpr (Or.inl h))
        · rcases List.mem_cons.mp ht with rfl | ht2
          · exact Or.inl (hmerge.mpr (Or.inr hxt))
          · exact Or.inr ⟨t, ht2, hxt⟩
    · rw [if_neg hcase]
      constructor
      · rintro ⟨t, ht, hxt⟩
        rcases List.mem_cons.mp ht with rfl | ht2
        · exact Or.inl hxt
        · have := (ih r ⟨mr, hr⟩
            (fun t2 ht2b => hall t2 (List.mem_cons_of_mem _ ht2b))
            (fun t2 ht2b => List.rel_of_pairwise_cons hpair ht2b)
            (List.Pairwise.of_cons hpair) x).mp ⟨t, ht2, hxt⟩
          rcases this with h | ⟨t2, ht2b, hxt2⟩
          · exact Or.inr ⟨r, List.mem_cons_self _ _, h⟩
          · exact Or.inr ⟨t2, List.mem_cons_of_mem _ ht2b, hxt2⟩
      · rintro (h | ⟨t, ht, hxt⟩)
        · exact ⟨cur, List.mem_cons_self _ _, h⟩
        · have := (ih r ⟨mr, hr⟩
            (fun t2 ht2b => hall t2 (List.mem_cons_of_mem _ ht2b))
            (fun t2 ht2b => List.rel_of_pairwise_cons hpair ht2b)
            (List.Pairwise.of_cons hpair) x).mpr
          rcases List.mem_cons.mp ht with rfl | ht2
          · rcases this (Or.inl hxt) with ⟨t2, ht2b, hxt2⟩
            exact ⟨t2, List.mem_cons_of_mem _ ht2b, hxt2⟩
          · rcases this (Or.inr ⟨t, ht2, hxt⟩) with ⟨t2, ht2b, hxt2⟩
            exact ⟨t2, List.mem_cons_of_mem _ ht2b, hxt2⟩

theorem mergeRanges_pts {s : ℚ} (hs : 0 < s) (a0 : ℚ) (rs : List (ℚ × ℚ))
    (hlat : ∀ r ∈ rs, ∃ m : ℕ, r.1 = a0 + m * s)
    (hsorted : rs.Pairwise (fun r t => r.1 ≤ t.1)) (x : ℚ) :
    (∃ r ∈ mergeRanges rs, x ∈ npArange r.1 (r.2 + gridEps) s) ↔
      ∃ r ∈ rs, x ∈ npArange r.1 (r.2 + gridEps) s := by
  cases rs with
  | nil => simp [mergeRanges]
  | cons r rest =>
    rw [mergeRanges]
    rw [mergeRangesGo_pts hs a0 rest r (hlat r (List.mem_cons_self _ _))
      (fun t ht => hlat t (List.mem_cons_of_mem _ ht))
      (fun t ht => List.rel_of_pairwise_cons hsorted ht)
      (List.Pairwise.of_cons hsorted) x]
    constructor
    · rintro (h | ⟨t, ht, hxt⟩)
      · exact ⟨r, List.mem_cons_self _ _, h⟩
      · exact ⟨t, List.mem_cons_of_mem _ ht, hxt⟩
    · rintro ⟨t, ht, hxt⟩
      rcases List.mem_cons.mp ht with rfl | ht2
      · exact Or.inl hxt
      · exact Or.inr ⟨t, ht2, hxt⟩

theorem range_lo_lattice {step : ℚ} (hs : 0 < step) {cf : ℕ} (hcf : 0 < cf)
    {ss km : ℚ} (i : ℕ) (hkm : km = ss + (i : ℚ) * (step * (cf : ℚ))) :
    ∃ m : ℕ, max ss (km - step * (cf : ℚ)) = ss + (m : ℚ) * step := by
  refine ⟨i * cf - cf, ?_⟩
  rcases Nat.eq_zero_or_pos i with hi | hi
  · subst hi
    simp only [Nat.cast_zero, zero_mul, add_zero] at hkm
    subst hkm
    have hcf0 : (0 : ℚ) ≤ step * (cf : ℚ) := by positivity
    simp only [Nat.zero_mul, Nat.zero_sub, Nat.cast_zero, zero_mul, add_zero]
    apply max_eq_left
    linarith
  · have hge : cf ≤ i * cf := Nat.le_mul_of_pos_left cf hi
    have hcast : ((i * cf - cf : ℕ) : ℚ) = (i : ℚ) * (cf : ℚ) - (cf : ℚ) := by
      push_cast [Nat.cast_sub hge]
      ring
    have heq : km - step * (cf : ℚ) = ss + ((i : ℚ) * (cf : ℚ) - (cf : ℚ)) * step := by
      rw [hkm]
      ring
    rw [heq, hcast]
    apply max_eq_right
    have h1 : (0 : ℚ) ≤ (i : ℚ) * (cf : ℚ) - (cf : ℚ) := by
      have h2 : ((cf : ℕ) : ℚ) ≤ ((i * cf : ℕ) : ℚ) := by exact_mod_cast hge
      push_cast at h2
      linarith
    nlinarith

theorem bridgeCandidates_lattice {step : ℚ} (hs : 0 < step) {cf : ℕ} (hcf : 0 < cf)
    (df : List PaceRow) (pe ce : String) (sp sc ss se w : ℚ) :
    ∀ km ∈ bridgeCandidates df pe ce sp sc ss se w step cf,
      (∃ i : ℕ, km = ss + (i : ℚ) * (step * (cf : ℚ))) ∧ km < se + gridEps := by
  intro km h
  unfold bridgeCandidates at h
  rw [List.mem_filter] at h
  have hscf : (0 : ℚ) < step * (cf : ℚ) := by
    have hq : (0 : ℚ) < (cf : ℚ) := by exact_mod_cast hcf
    positivity
  exact (mem_npArange hscf ss (se + gridEps) km).mp h.1

theorem mem_bridgeRefined_iff {step : ℚ} (hs : 0 < step) {cf : ℕ} (hcf : 0 < cf)
    (df : List PaceRow) (pe ce : String) (sp sc ss se w : ℚ) (x : ℚ) :
    x ∈ bridgeRefined df pe ce sp sc ss se w step cf ↔
      ∃ km ∈ bridgeCandidates df pe ce sp sc ss se w step cf,
        x ∈ npArange (max ss (km - step * (cf : ℚ)))
          (min se (km + step * (cf : ℚ)) + gridEps) step := by
  unfold bridgeRefined
  rw [mem_npUnique, List.mem_flatten]
  have hperm := List.perm_insertionSort rangeLE
    (bridgeRanges (bridgeCandidates df pe ce sp sc ss se w step cf) ss se
      (step * (cf : ℚ)))
  have hsorted : (List.insertionSort rangeLE
      (bridgeRanges (bridgeCandidates df pe ce sp sc ss se w step cf) ss se
        (step * (cf : ℚ)))).Pairwise (fun r t => r.1 ≤ t.1) := by
    apply List.Pairwise.imp ?_ (List.sorted_insertionSort rangeLE _)
    intro a b hab
    rcases hab with h | ⟨h, _⟩
    · exact le_of_lt h
    · exact le_of_eq h
  have hlat : ∀ r ∈ List.insertionSort rangeLE
      (bridgeRanges (bridgeCandidates df pe ce sp sc ss se w step cf) ss se
        (step * (cf : ℚ))), ∃ m : ℕ, r.1 = ss + (m : ℚ) * step := by
    intro r hr
    have hr2 := hperm.subset hr
    unfold bridgeRanges at hr2
    rw [List.mem_map] at hr2
    rcases hr2 with ⟨km, hkm, rfl⟩
    rcases (bridgeCandidates_lattice hs hcf df pe ce sp sc ss se w km hkm).1
      with ⟨i, hi⟩
    exact range_lo_lattice hs hcf i hi
  constructor
  · rintro ⟨l, hl, hx⟩
    rw [List.mem_map] at hl
    rcases hl with ⟨r, hr, rfl⟩
    have h2 := (mergeRanges_pts hs ss _ hlat hsorted x).mp ⟨r, hr, hx⟩
    rcases h2 with ⟨t, ht, hxt⟩
    have ht2 := hperm.subset ht
    unfold bridgeRanges at ht2
    rw [List.mem_map] at ht2
    rcases ht2 with ⟨km, hkm, rfl⟩
    exact ⟨km, hkm, hxt⟩
  · rintro ⟨km, hkm, hx⟩
    have hmem : ((max ss (km - step * (cf : ℚ)), min se (km + step * (cf : ℚ)))
        : ℚ × ℚ) ∈ List.insertionSort rangeLE
        (bridgeRanges (bridgeCandidates df pe ce sp sc ss se w step cf) ss se
          (step * (cf : ℚ))) := by
      rw [hperm.mem_iff]
      unfold bridgeRanges
      rw [List.mem_map]
      exact ⟨km, hkm, rfl⟩
    have h2 := (mergeRanges_pts hs ss _ hlat hsorted x).mpr ⟨_, hmem, hx⟩
    rcases h2 with ⟨r, hr, hxr⟩
    exact ⟨npArange r.1 (r.2 + gridEps) step, List.mem_map.mpr ⟨r, hr, rfl⟩, hxr⟩

theorem bridgeRefined_subset_full {step : ℚ} (hs : 0 < step) {cf : ℕ}
    (hcf : 0 < cf) (df : List PaceRow) (pe ce : String) (sp sc ss se w : ℚ) :
    ∀ x ∈ bridgeRefined df pe ce sp sc ss se w step cf,
      x ∈ npArange ss (se + gridEps) step := by
  intro x hx
  rcases (mem_bridgeRefined_iff hs hcf df pe ce sp sc ss se w x).mp hx
    with ⟨km, hkm, hxr⟩
  rcases (bridgeCandidates_lattice hs hcf df pe ce sp sc ss se w km hkm).1
    with ⟨i, hi⟩
  rcases range_lo_lattice hs hcf i hi with ⟨m, hm⟩
  rcases (mem_npArange hs _ _ x).mp hxr with ⟨⟨j, hj⟩, hlt⟩
  rw [mem_npArange hs]
  constructor
  · refine ⟨m + j, ?_⟩
    rw [hj, hm]
    push_cast
    ring
  · have hmin : min se (km + step * (cf : ℚ)) ≤ se := min_le_left _ _
    linarith

theorem bridgeCandidates_mono (df : List PaceRow) (pe ce : String)
    (sp sc ss se : ℚ) {w1 w2 : ℚ} (hw : w1 ≤ w2) (step : ℚ) (cf : ℕ) :
    ∀ km ∈ bridgeCandidates df pe ce sp sc ss se w1 step cf,
      km ∈ bridgeCandidates df pe ce sp sc ss se w2 step cf := by
  intro km h
  unfold bridgeCandidates at h ⊢
  rw [List.mem_filter] at h ⊢
  refine ⟨h.1, ?_⟩
  have h2 := h.2
  rw [Bool.not_eq_eq_eq_not, Bool.not_true, List.isEmpty_eq_false] at h2 ⊢
  exact stepHits_ne_nil_mono sp sc km hw (List.Sublist.refl _) (List.Sublist.refl _) h2

theorem bridgeRefined_mono {step : ℚ} (hs : 0 < step) {cf : ℕ} (hcf : 0 < cf)
    (df : List PaceRow) (pe ce : String) (sp sc ss se : ℚ) {w1 w2 : ℚ}
    (hw : w1 ≤ w2) :
    ∀ x ∈ bridgeRefined df pe ce sp sc ss se w1 step cf,
      x ∈ bridgeRefined df pe ce sp sc ss se w2 step cf := by
  intro x hx
  rcases (mem_bridgeRefined_iff hs hcf df pe ce sp sc ss se w1 x).mp hx
    with ⟨km, hkm, hxr⟩
  exact (mem_bridgeRefined_iff hs hcf df pe ce sp sc ss se w2 x).mpr
    ⟨km, bridgeCandidates_mono df pe ce sp sc ss se hw step cf km hkm, hxr⟩

/-! ## Helper lemmas: the arrival dict keeps the rows when ids are unique -/

theorem dictRows_foldl_eq (l : List PaceRow) : ∀ acc : List PaceRow,
    ((acc ++ l).map PaceRow.runner_id).Nodup →
    l.foldl dictUpsert acc = acc ++ l := by
  induction l with
  | nil =>
    intro acc _
    simp
  | cons r rest ih =>
    intro acc hnd
    have hmem : r.runner_id ∉ acc.map PaceRow.runner_id := by
      intro hmem
      rw [List.map_append, List.nodup_append] at hnd
      exact hnd.2.2 hmem (by simp)
    have hfalse : (acc.any fun s => s.runner_id == r.runner_id) = false := by
      rw [List.any_eq_false]
      intro s hs
      simp only [beq_iff_eq]
      intro heq
      exact hmem (heq ▸ List.mem_map_of_mem PaceRow.runner_id hs)
    have hup : dictUpsert acc r = acc ++ [r] := by
      rw [dictUpsert, hfalse]
      simp
    rw [List.foldl_cons, hup, ih (acc ++ [r]) (by simpa using hnd)]
    simp

theorem dictRows_eq_self {l : List PaceRow}
    (h : (l.map PaceRow.runner_id).Nodup) : dictRows l = l := by
  rw [dictRows, dictRows_foldl_eq l [] (by simpa using h)]
  simp

/-- C5: for a fixed pace table, event pair, start times, segment and step, the
`cumulative_overlap_events` of both segment detectors — the brute-force
`detect_overlap.detect_segment_overlap` and the coarse-to-fine
`bridge._detect_segment_overlap` — is monotonically non-decreasing in
`time_window_secs`: whenever `w1 ≤ w2` and both calls return a result, the
count at `w1` is at most the count at `w2`. -/
theorem c5_cumulative_monotone_in_window
    (df : List PaceRow) (pe ce : String) (sp sc ss se step : ℚ) (cf : ℕ)
    (hs : 0 < step) (hcf : 0 < cf) {w1 w2 : ℚ} (hw : w1 ≤ w2) :
    (∀ r1 r2 : DetectionResult,
      detect_segment_overlap df pe ce sp sc ss se w1 step = some r1 →
      detect_segment_overlap df pe ce sp sc ss se w2 step = some r2 →
      r1.cumulative_overlap_events ≤ r2.cumulative_overlap_events) ∧
    (∀ r1 r2 : BridgeResult,
      bridgeDetect df pe ce sp sc ss se w1 step cf = some r1 →
      bridgeDetect df pe ce sp sc ss se w2 step cf = some r2 →
      r1.cumulative_overlap_events ≤ r2.cumulative_overlap_events) := by
  constructor
  · intro r1 r2 h1 h2
    simp only [detect_segment_overlap] at h1 h2
    by_cases hA : ((eventRows df pe).isEmpty || (eventRows df ce).isEmpty) = true
    · rw [if_pos hA] at h1
      exact absurd h1 (by simp)
    · rw [if_neg hA] at h1 h2
      rw [Option.some.injEq] at h1 h2
      subst h1
      subst h2
      dsimp only
      rw [overlapScan_cumulative, overlapScan_cumulative]
      apply List.sum_le_sum
      intro km hkm
      exact List.Sublist.length_le (stepHits_window sp sc km hw _ _)
  · intro r1 r2 h1 h2
    simp only [bridgeDetect] at h1 h2
    by_cases hA : ((eventRows df pe).isEmpty || (eventRows df ce).isEmpty) = true
    · rw [if_pos hA] at h1
      exact absurd h1 (by simp)
    rw [if_neg hA] at h1 h2
    by_cases hB : ((bridgePrevFiltered df pe ce sp sc ss se).isEmpty
        || (bridgeCurrFiltered df pe ce sp sc ss se).isEmpty) = true
    · rw [if_pos hB] at h1
      exact absurd h1 (by simp)
    rw [if_neg hB] at h1 h2
    by_cases hC2 : (bridgeCandidates df pe ce sp sc ss se w2 step cf).isEmpty = true
    · have hC1 : (bridgeCandidates df pe ce sp sc ss se w1 step cf).isEmpty = true := by
        rw [List.isEmpty_iff] at hC2 ⊢
        rcases h : bridgeCandidates df pe ce sp sc ss se w1 step cf with _ | ⟨x, xs⟩
        · rfl
        · have hx := bridgeCandidates_mono df pe ce sp sc ss se hw step cf x
            (h ▸ List.mem_cons_self x xs)
          rw [hC2] at hx
          cases hx
      rw [if_pos hC1] at h1
      rw [if_pos hC2] at h2
      rw [Option.some.injEq] at h1 h2
      subst h1
      subst h2
      exact le_rfl
    · rw [if_neg hC2] at h2
      rw [Option.some.injEq] at h2
      subst h2
      by_cases hC1 : (bridgeCandidates df pe ce sp sc ss se w1 step cf).isEmpty = true
      · rw [if_pos hC1] at h1
        rw [Option.some.injEq] at h1
        subst h1
        exact Nat.zero_le _
      · rw [if_neg hC1] at h1
        rw [Option.some.injEq] at h1
        subst h1
        dsimp only
        rw [overlapScan_cumulative, overlapScan_cumulative]
        apply sum_le_of_grid_subset (npUnique_nodup _) (npUnique_nodup _)
          (bridgeRefined_mono hs hcf df pe ce sp sc ss se hw)
        intro km hkm
        exact List.Sublist.length_le (stepHits_window sp sc km hw _ _)

/-- Witness for C5 at a concrete input: two runners of equal pace whose
starts differ by half a minute, windows 30 and 60 seconds. -/
theorem c5_cumulative_monotone_in_window_witness :
    detect_segment_overlap [⟨"A", 1, 5⟩, ⟨"B", 2, 5⟩] "A" "B" 0 (1/2) 0 (1/5)
        30 (1/10) =
      some ⟨0, 1/5, 1, 1, some (0, 0, 1, 2), 3, 2, {1}, {2}, 1⟩ ∧
    detect_segment_overlap [⟨"A", 1, 5⟩, ⟨"B", 2, 5⟩] "A" "B" 0 (1/2) 0 (1/5)
        60 (1/10) =
      some ⟨0, 1/5, 1, 1, some (0, 0, 1, 2), 3, 2, {1}, {2}, 1⟩ ∧
    DetectionResult.cumulative_overlap_events
        ⟨0, 1/5, 1, 1, some (0, 0, 1, 2), 3, 2, {1}, {2}, 1⟩ ≤
      DetectionResult.cumulative_overlap_events
        ⟨0, 1/5, 1, 1, some (0, 0, 1, 2), 3, 2, {1}, {2}, 1⟩ := by
  refine ⟨by decide, by decide, ?_⟩
  exact (c5_cumulative_monotone_in_window [⟨"A", 1, 5⟩, ⟨"B", 2, 5⟩] "A" "B"
      0 (1/2) 0 (1/5) (1/10) 5 (by norm_num) (by norm_num)
      (by norm_num : (30 : ℚ) ≤ 60)).1
    ⟨0, 1/5, 1, 1, some (0, 0, 1, 2), 3, 2, {1}, {2}, 1⟩
    ⟨0, 1/5, 1, 1, some (0, 0, 1, 2), 3, 2, {1}, {2}, 1⟩
    (by decide) (by decide)

/-- C1 (corrected): the coarse-to-fine detector of bridge.py does not return
the same `first_overlap`, `peak_congestion` and `unique_overlapping_pairs` as
the brute-force full-resolution scan of detect_overlap.py on every input —
the coarse scan at `step_km * coarse_factor` can miss overlaps that only the
fine grid sees.  What holds is a one-sided refinement bound: with runner ids
unique per event, whenever both detectors return a result, the bridge
`cumulative_overlap_events`, `peak_congestion` and `unique_overlapping_pairs`
are at most the brute-force values, and a bridge first overlap implies a
brute-force first overlap. -/
theorem c1_bridge_refines_brute
    (df : List PaceRow) (pe ce : String) (sp sc ss se w step : ℚ) (cf : ℕ)
    (hs : 0 < step) (hcf : 0 < cf)
    (hP : ((eventRows df pe).map PaceRow.runner_id).Nodup)
    (hC : ((eventRows df ce).map PaceRow.runner_id).Nodup)
    (r1 : BridgeResult) (r2 : DetectionResult)
    (h1 : bridgeDetect df pe ce sp sc ss se w step cf = some r1)
    (h2 : detect_segment_overlap df pe ce sp sc ss se w step = some r2) :
    r1.cumulative_overlap_events ≤ r2.cumulative_overlap_events ∧
    r1.peak_congestion ≤ r2.peak_congestion ∧
    r1.unique_overlapping_pairs ≤ r2.unique_overlapping_pairs ∧
    (r1.first_overlap ≠ none → r2.first_overlap ≠ none) := by
  simp only [detect_segment_overlap] at h2
  simp only [bridgeDetect] at h1
  by_cases hA : ((eventRows df pe).isEmpty || (eventRows df ce).isEmpty) = true
  · rw [if_pos hA] at h1
    exact absurd h1 (by simp)
  rw [if_neg hA] at h1 h2
  rw [Option.some.injEq] at h2
  subst h2
  by_cases hB : ((bridgePrevFiltered df pe ce sp sc ss se).isEmpty
      || (bridgeCurrFiltered df pe ce sp sc ss se).isEmpty) = true
  · rw [if_pos hB] at h1
    exact absurd h1 (by simp)
  rw [if_neg hB] at h1
  have hPsub : (bridgePrevFiltered df pe ce sp sc ss se).Sublist
      (eventRows df pe) := by
    rw [bridgePrevFiltered]
    exact List.filter_sublist _
  have hCsub : (bridgeCurrFiltered df pe ce sp sc ss se).Sublist
      (eventRows df ce) := by
    rw [bridgeCurrFiltered]
    exact List.filter_sublist _
  have hG1 : (bridgeRefined df pe ce sp sc ss se w step cf).Nodup := by
    rw [bridgeRefined]
    exact npUnique_nodup _
  by_cases hCand : (bridgeCandidates df pe ce sp sc ss se w step cf).isEmpty = true
  · rw [if_pos hCand] at h1
    rw [Option.some.injEq] at h1
    subst h1
    dsimp only
    rw [dictRows_eq_self hP, dictRows_eq_self hC]
    exact ⟨Nat.zero_le _, Nat.zero_le _, Nat.zero_le _, fun hne => absurd rfl hne⟩
  · rw [if_neg hCand] at h1
    rw [Option.some.injEq] at h1
    subst h1
    dsimp only
    rw [dictRows_eq_self hP, dictRows_eq_self hC]
    refine ⟨?_, ?_, ?_, ?_⟩
    · rw [overlapScan_cumulative, overlapScan_cumulative]
      apply sum_le_of_grid_subset hG1 (npArange_nodup hs _ _)
        (bridgeRefined_subset_full hs hcf df pe ce sp sc ss se w)
      intro km hkm
      exact List.Sublist.length_le (stepHits_mono sp sc km le_rfl hPsub hCsub)
    · have hle := (overlapScan_peak_le_iff detectTieTol sp sc w (eventRows df pe)
        (eventRows df ce) (npArange ss (se + gridEps) step)
        (overlapScan detectTieTol sp sc w (eventRows df pe) (eventRows df ce)
          (npArange ss (se + gridEps) step)).peak).mp le_rfl
      rcases overlapScan_peak_cases bridgeTieTol sp sc w
          (bridgePrevFiltered df pe ce sp sc ss se)
          (bridgeCurrFiltered df pe ce sp sc ss se)
          (bridgeRefined df pe ce sp sc ss se w step cf) with h0 | ⟨km, hkm, hpk⟩
      · rw [h0]
        exact Nat.zero_le _
      · rw [hpk]
        have hstep1 : totAt sp sc w km (bridgePrevFiltered df pe ce sp sc ss se)
            (bridgeCurrFiltered df pe ce sp sc ss se)
            ≤ totAt sp sc w km (eventRows df pe) (eventRows df ce) :=
          totAt_mono sp sc km le_rfl hPsub hCsub
        exact le_trans hstep1 (hle km
          (bridgeRefined_subset_full hs hcf df pe ce sp sc ss se w km hkm))
    · apply Finset.card_le_card
      intro x hx
      rw [overlapScan_pairs_mem] at hx ⊢
      rcases hx with ⟨km, hkm, hxk⟩
      exact ⟨km, bridgeRefined_subset_full hs hcf df pe ce sp sc ss se w km hkm,
        pairIdsAt_mono sp sc km le_rfl hPsub hCsub hxk⟩
    · intro hne h2none
      apply hne
      rw [overlapScan_first_none_iff] at h2none ⊢
      intro km hkm
      have h := h2none km
        (bridgeRefined_subset_full hs hcf df pe ce sp sc ss se w km hkm)
      have hsub := stepHits_mono sp sc km (le_refl w) hPsub hCsub
      rw [h] at hsub
      exact List.sublist_nil.mp hsub

/-- Counterexample to the claimed equality of the two detectors: one runner
per event, paces 10 and 5, starts 0 and 5/4 minutes, segment [0, 1] km,
window 60 s, step 0.1 km, coarse factor 5.  The overlaps happen only at the
fine kms 0.1-0.4; none of the coarse samples 0, 0.5, 1 sees a hit, so the
bridge returns the zero result while the brute-force scan finds 4 overlap
events, peak 2 and a first overlap. -/
theorem c1_coarse_vs_brute_counterexample :
    bridgeDetect [⟨"A", 1, 10⟩, ⟨"B", 2, 5⟩] "A" "B" 0 (5/4) 0 1 60 (1/10) 5 =
      some ⟨0, 1, 1, 1, none, 0, 0, 0⟩ ∧
    detect_segment_overlap [⟨"A", 1, 10⟩, ⟨"B", 2, 5⟩] "A" "B" 0 (5/4) 0 1
        60 (1/10) =
      some ⟨0, 1, 1, 1, some (1, 1/10, 1, 2), 4, 2, {1}, {2}, 1⟩ ∧
    BridgeResult.peak_congestion ⟨0, 1, 1, 1, none, 0, 0, 0⟩ ≠
      DetectionResult.peak_congestion
        ⟨0, 1, 1, 1, some (1, 1/10, 1, 2), 4, 2, {1}, {2}, 1⟩ ∧
    BridgeResult.unique_overlapping_pairs ⟨0, 1, 1, 1, none, 0, 0, 0⟩ ≠
      DetectionResult.unique_overlapping_pairs
        ⟨0, 1, 1, 1, some (1, 1/10, 1, 2), 4, 2, {1}, {2}, 1⟩ ∧
    BridgeResult.first_overlap ⟨0, 1, 1, 1, none, 0, 0, 0⟩ ≠
      DetectionResult.first_overlap
        ⟨0, 1, 1, 1, some (1, 1/10, 1, 2), 4, 2, {1}, {2}, 1⟩ := by
  refine ⟨by decide, by decide, by decide, by decide, by decide⟩

/-- Witness for C1 at a concrete input where both detectors return a result:
the bridge counts are bounded by the brute-force counts. -/
theorem c1_bridge_refines_brute_witness :
    bridgeDetect [⟨"A", 1, 5⟩, ⟨"B", 2, 5⟩] "A" "B" 0 (1/2) 0 (1/5)
        60 (1/10) 5 =
      some ⟨0, 1/5, 1, 1, some (0, 0, 1, 2), 3, 2, 1⟩ ∧
    detect_segment_overlap [⟨"A", 1, 5⟩, ⟨"B", 2, 5⟩] "A" "B" 0 (1/2) 0 (1/5)
        60 (1/10) =
      some ⟨0, 1/5, 1, 1, some (0, 0, 1, 2), 3, 2, {1}, {2}, 1⟩ ∧
    (BridgeResult.cumulative_overlap_events
        ⟨0, 1/5, 1, 1, some (0, 0, 1, 2), 3, 2, 1⟩ ≤
      DetectionResult.cumulative_overlap_events
        ⟨0, 1/5, 1, 1, some (0, 0, 1, 2), 3, 2, {1}, {2}, 1⟩ ∧
    BridgeResult.peak_congestion ⟨0, 1/5, 1, 1, some (0, 0, 1, 2), 3, 2, 1⟩ ≤
      DetectionResult.peak_congestion
        ⟨0, 1/5, 1, 1, some (0, 0, 1, 2), 3, 2, {1}, {2}, 1⟩ ∧
    BridgeResult.unique_overlapping_pairs
        ⟨0, 1/5, 1, 1, some (0, 0, 1, 2), 3, 2, 1⟩ ≤
      DetectionResult.unique_overlapping_pairs
        ⟨0, 1/5, 1, 1, some (0, 0, 1, 2), 3, 2, {1}, {2}, 1⟩ ∧
    (BridgeResult.first_overlap ⟨0, 1/5, 1, 1, some (0, 0, 1, 2), 3, 2, 1⟩ ≠ none →
      DetectionResult.first_overlap
        ⟨0, 1/5, 1, 1, some (0, 0, 1, 2), 3, 2, {1}, {2}, 1⟩ ≠ none)) := by
  refine ⟨by decide, by decide, ?_⟩
  exact c1_bridge_refines_brute [⟨"A", 1, 5⟩, ⟨"B", 2, 5⟩] "A" "B" 0 (1/2)
    0 (1/5) 60 (1/10) 5 (by norm_num) (by norm_num) (by decide) (by decide)
    ⟨0, 1/5, 1, 1, some (0, 0, 1, 2), 3, 2, 1⟩
    ⟨0, 1/5, 1, 1, some (0, 0, 1, 2), 3, 2, {1}, {2}, 1⟩ (by decide) (by decide)
